import Mathlib

/-!
Verification development for the unipile-invitations-metrics-backend service.

The TypeScript sources are shallowly embedded as follows:
* JavaScript numbers used as 32-bit integers (the `simpleHash` pipeline in
  `src/unipile/mock.ts`) are modelled as `Int` with explicit wrap-around
  (`toInt32`); `Math.abs` becomes `Int.natAbs`.
* JavaScript `Date` values are modelled as `Option Int`: `some tv` is a valid
  date holding the time value `tv` in milliseconds since the Unix epoch, `none`
  is an Invalid Date (NaN time value).  Calling `toISOString` on an Invalid
  Date throws, so functions that do this return `Option` with `none` for the
  thrown `RangeError`.
* The UTC calendar arithmetic that the code delegates to the JavaScript engine
  (parsing of ECMAScript date-time strings, `toISOString`, `setUTCDate`,
  `setUTCHours`) is implemented on the proleptic Gregorian calendar, exactly
  as specified by ECMAScript `MakeDay` / `YearFromTime` / the Date Time String
  Format: a conforming string `YYYY-MM-DD` needs `01 ≤ MM ≤ 12` and
  `01 ≤ DD ≤ 31` and is normalized by `MakeDay` (so `2025-02-30` parses to
  `2025-03-02`), while a string with e.g. `DD = 32` does not conform and
  yields an Invalid Date; `toISOString` prints years outside `[0, 9999]` in
  the expanded `±YYYYYY` form.  Non-conforming strings that the (V8) legacy
  parser would also reject are modelled as Invalid Date; no string shape that
  this code base can produce relies on the legacy parser.
* Firestore collections are modelled as association lists from document id to
  document, with `set(..., merge: true)` of a full document modelled as an
  upsert.  Firestore compares string fields bytewise (UTF-8), which on the
  code-point level equals lexicographic comparison of the character lists;
  this is `charListLtB` below.
* `Array.prototype.sort` with the `localeCompare` comparator is modelled as a
  stable merge sort under the same lexicographic order (for the pure-ASCII
  timestamp strings being compared, `localeCompare` agrees with it).
-/

set_option maxRecDepth 16000

/-! ## JavaScript 32-bit hashing (src/unipile/mock.ts, simpleHash) -/

/-- Wrap an integer to a signed 32-bit value, as `x & x` (ToInt32) does in JS. -/
def toInt32 (n : Int) : Int := (n + 2 ^ 31) % 2 ^ 32 - 2 ^ 31

/-- UTF-16 code units of a character, as `String.prototype.charCodeAt` sees them. -/
def utf16Units (c : Char) : List Nat :=
  if c.toNat < 65536 then [c.toNat]
  else [55296 + (c.toNat - 65536) / 1024, 56320 + (c.toNat - 65536) % 1024]

/-- UTF-16 code unit sequence of a string. -/
def codeUnits (s : String) : List Nat := (s.data.map utf16Units).flatten

/-- One loop iteration of `simpleHash`:
    `hash = ((hash << 5) - hash) + char; hash = hash & hash`. -/
def hashStep (h : Int) (code : Nat) : Int := toInt32 (toInt32 (h * 32) - h + code)

/-- The signed 32-bit hash accumulated by `simpleHash` before `Math.abs`. -/
def hashInt32 (s : String) : Int := (codeUnits s).foldl hashStep 0

/-- `simpleHash` from src/unipile/mock.ts: 32-bit rolling hash, absolute value. -/
def simpleHash (s : String) : Nat := (hashInt32 s).natAbs

/-! ## Digit rendering helpers -/

/-- The ASCII digit character for `n < 10`. -/
def digitChar (n : Nat) : Char := Char.ofNat (48 + n)

/-- `n` printed in decimal, zero-padded to exactly `w` digits (for `n < 10 ^ w`). -/
def padNat : Nat → Nat → List Char
  | 0, _ => []
  | w + 1, n => digitChar (n / 10 ^ w % 10) :: padNat w (n % 10 ^ w)

/-- Decimal digits of `n` (fuel-driven so the kernel can evaluate it). -/
def natDecChars : Nat → Nat → List Char
  | 0, _ => []
  | fuel + 1, n => if n < 10 then [digitChar n] else natDecChars fuel (n / 10) ++ [digitChar (n % 10)]

/-- Decimal rendering of a natural number, as JS template interpolation prints it. -/
def natToDec (n : Nat) : String := ⟨natDecChars (n + 1) n⟩

/-- Base-36 digit character, as `Number.prototype.toString(36)` uses. -/
def digit36 (n : Nat) : Char := if n < 10 then digitChar n else Char.ofNat (97 + (n - 10))

/-- Base-36 digits of `n` (fuel-driven). -/
def nat36Chars : Nat → Nat → List Char
  | 0, _ => []
  | fuel + 1, n => if n < 36 then [digit36 n] else nat36Chars fuel (n / 36) ++ [digit36 (n % 36)]

/-- `n.toString(36)` for a non-negative integer `n`. -/
def natTo36 (n : Nat) : String := ⟨nat36Chars (n + 1) n⟩

/-! ## Bytewise string comparison (Firestore order / `localeCompare` on ASCII) -/

/-- Lexicographic `<` on character lists by code point. -/
def charListLtB : List Char → List Char → Bool
  | [], [] => false
  | [], _ :: _ => true
  | _ :: _, [] => false
  | a :: as, b :: bs =>
    if a.toNat < b.toNat then true
    else if b.toNat < a.toNat then false
    else charListLtB as bs

/-- Strict lexicographic string comparison (Firestore's order on string fields). -/
def strLtB (a b : String) : Bool := charListLtB a.data b.data

/-- Non-strict lexicographic string comparison. -/
def strLeB (a b : String) : Bool := !(strLtB b a)

/-! ## Stable sorting (JS `Array.prototype.sort` with a comparator)

`Array.prototype.sort` is required to be stable; a stable merge sort that
prefers the left element on ties models it.  The sort is fuel-driven
(structural recursion) so that the kernel can evaluate it; fuel `l.length`
always exceeds the recursion depth. -/

/-- Merge two runs, taking from the left run on ties (stability). -/
def mergeRuns {α : Type} (le : α → α → Bool) : Nat → List α → List α → List α
  | 0, as, bs => as ++ bs
  | _ + 1, [], bs => bs
  | _ + 1, a :: as, [] => a :: as
  | fuel + 1, a :: as, b :: bs =>
    if le a b then a :: mergeRuns le fuel as (b :: bs)
    else b :: mergeRuns le fuel (a :: as) bs

/-- Fuel-driven stable merge sort. -/
def sortByAux {α : Type} (le : α → α → Bool) : Nat → List α → List α
  | 0, l => l
  | fuel + 1, l =>
    if l.length ≤ 1 then l
    else
      let n := l.length / 2
      mergeRuns le l.length (sortByAux le fuel (l.take n)) (sortByAux le fuel (l.drop n))

/-- Stable sort of `l` under the boolean comparator `le`. -/
def stableSortBy {α : Type} (le : α → α → Bool) (l : List α) : List α :=
  sortByAux le l.length l

/-! ## Proleptic Gregorian calendar (the UTC date math of the JS engine) -/

/-- Gregorian leap-year test. -/
def isLeapY (y : Nat) : Bool := (y % 4 == 0 && y % 100 != 0) || y % 400 == 0

/-- Number of days in year `y`. -/
def daysInYearN (y : Nat) : Nat := if isLeapY y then 366 else 365

/-- Days from 0000-01-01 to `y`-01-01 (closed form counting leap years). -/
def daysBeforeYear (y : Nat) : Nat := 365 * y + (y + 3) / 4 - (y + 99) / 100 + (y + 399) / 400

/-- Days in month `m` (1-12) of a (non-)leap year. -/
def daysInMonthB (leap : Bool) (m : Nat) : Nat :=
  if m = 2 then (if leap then 29 else 28)
  else if m = 4 ∨ m = 6 ∨ m = 9 ∨ m = 11 then 30 else 31

/-- Days from the start of the year to the start of month `m` (1-12). -/
def daysBeforeMonthB (leap : Bool) : Nat → Nat
  | 0 => 0
  | 1 => 0
  | m + 1 => daysBeforeMonthB leap m + daysInMonthB leap m

/-- Rata die (day index from 0000-01-01) of `y-m-d`.  A day count `d` past the
    end of the month overflows into the following months, exactly like
    ECMAScript `MakeDay` (so `2025-02-30` denotes the day 2025-03-02). -/
def ratadie (y m d : Nat) : Nat := daysBeforeYear y + daysBeforeMonthB (isLeapY y) m + (d - 1)

/-- March years upward until the day-of-year fits; fuel-driven so that the
    kernel can evaluate it. -/
def yearOfAux : Nat → Nat → Nat → Nat × Nat
  | 0, y, n => (y, n)
  | fuel + 1, y, n =>
    if n < daysInYearN y then (y, n) else yearOfAux fuel (y + 1) (n - daysInYearN y)

/-- Year and day-of-year of a rata die.  Whole 400-year cycles (146097 days
    each) are skipped first; the remainder is within 400 years plus slack, so
    fuel 402 always suffices. -/
def yearOfRD (n : Nat) : Nat × Nat :=
  let q := n / 146097
  yearOfAux 402 (400 * q) (n - 146097 * q)

/-- March months upward until the day-of-month fits. -/
def monthOfAux : Nat → Bool → Nat → Nat → Nat × Nat
  | 0, _, m, r => (m, r)
  | fuel + 1, leap, m, r =>
    if r < daysInMonthB leap m ∨ 12 ≤ m then (m, r)
    else monthOfAux fuel leap (m + 1) (r - daysInMonthB leap m)

/-- Month (1-12) and 0-based day-of-month of a day-of-year. -/
def monthOfDOY (leap : Bool) (doy : Nat) : Nat × Nat := monthOfAux 12 leap 1 doy

/-- Calendar triple `(y, m, d)` of a rata die (`m` 1-12, `d` 1-based). -/
def civilOfRD (n : Nat) : Nat × Nat × Nat :=
  let p := yearOfRD n
  let q := monthOfDOY (isLeapY p.1) p.2
  (p.1, q.1, q.2 + 1)

/-- Rata die of 1970-01-01; `daysBeforeYear 1970 = 719528`. -/
def epochRD : Nat := 719528

/-- Calendar triple of a day counted from the Unix epoch (day 0 = 1970-01-01).
    Negative proleptic years are reached by shifting whole 400-year cycles,
    which is exact because the Gregorian leap pattern has period 400. -/
def civilOfDay (day : Int) : Int × Nat × Nat :=
  let n := day + epochRD
  if 0 ≤ n then
    let c := civilOfRD n.toNat
    ((c.1 : Int), c.2.1, c.2.2)
  else
    let k := ((-n).toNat + 146096) / 146097
    let c := civilOfRD (n + (k : Int) * 146097).toNat
    ((c.1 : Int) - 400 * (k : Int), c.2.1, c.2.2)

/-- The `YYYY-MM-DD` (or expanded `±YYYYYY-MM-DD`) character rendering of an
    epoch day, as `Date.prototype.toISOString` prints the date part. -/
def formatDayChars (day : Int) : List Char :=
  let c := civilOfDay day
  (if 0 ≤ c.1 ∧ c.1 ≤ 9999 then padNat 4 c.1.toNat
   else if c.1 < 0 then '-' :: padNat 6 (-c.1).toNat
   else '+' :: padNat 6 c.1.toNat)
  ++ '-' :: padNat 2 c.2.1 ++ '-' :: padNat 2 c.2.2

/-- The date part of `toISOString` for the given epoch day, as a string. -/
def formatDay (day : Int) : String := ⟨formatDayChars day⟩

/-- `Date.prototype.toISOString` for time value `tv` (milliseconds since the
    epoch): date part, then `T HH:MM:SS.mmm Z`. -/
def isoOfTV (tv : Int) : String :=
  let day := tv / 86400000
  let r := (tv % 86400000).toNat
  ⟨formatDayChars day ++
    'T' :: padNat 2 (r / 3600000) ++
    ':' :: padNat 2 (r / 60000 % 60) ++
    ':' :: padNat 2 (r / 1000 % 60) ++
    '.' :: padNat 3 (r % 1000) ++ ['Z']⟩

/-! ## ECMAScript date-time string parsing -/

/-- ASCII digit test (JS `\d`). -/
def isDig (c : Char) : Bool := 48 ≤ c.toNat && c.toNat ≤ 57

/-- Numeric value of an ASCII digit character. -/
def digVal (c : Char) : Nat := c.toNat - 48

/-- Epoch day of a year/month/day triple with a possibly negative year.
    Only code-generated expanded-year strings reach the negative branch. -/
def epochDayOfYMD (y : Int) (m d : Nat) : Int :=
  if 0 ≤ y then (ratadie y.toNat m d : Int) - epochRD
  else
    (365 * y + (y + 3) / 4 - (y + 99) / 100 + (y + 399) / 400)
      + (daysBeforeMonthB ((y % 4 == 0 && y % 100 != 0) || y % 400 == 0) m : Int)
      + (d : Int) - 1 - epochRD

/-- Parse a simple `YYYY-MM-DD` date prefix: four year digits, the format's
    bounds `01 ≤ MM ≤ 12`, `01 ≤ DD ≤ 31`, then `MakeDay` normalization. -/
def parseSimpleDate : List Char → Option (Int × List Char)
  | c1 :: c2 :: c3 :: c4 :: '-' :: m1 :: m2 :: '-' :: d1 :: d2 :: rest =>
    if isDig c1 && isDig c2 && isDig c3 && isDig c4 &&
       isDig m1 && isDig m2 && isDig d1 && isDig d2 then
      let y := digVal c1 * 1000 + digVal c2 * 100 + digVal c3 * 10 + digVal c4
      let m := digVal m1 * 10 + digVal m2
      let d := digVal d1 * 10 + digVal d2
      if 1 ≤ m ∧ m ≤ 12 ∧ 1 ≤ d ∧ d ≤ 31 then
        some ((ratadie y m d : Int) - epochRD, rest)
      else none
    else none
  | _ => none

/-- Parse the digits of an expanded `±YYYYYY-MM-DD` date after its sign
    (`neg` true for `-`); `-000000` is explicitly not a valid expanded year. -/
def parseExpandedDate (neg : Bool) : List Char → Option (Int × List Char)
  | c1 :: c2 :: c3 :: c4 :: c5 :: c6 :: '-' :: m1 :: m2 :: '-' :: d1 :: d2 :: rest =>
    if isDig c1 && isDig c2 && isDig c3 && isDig c4 && isDig c5 && isDig c6 &&
       isDig m1 && isDig m2 && isDig d1 && isDig d2 then
      let y := digVal c1 * 100000 + digVal c2 * 10000 + digVal c3 * 1000 +
               digVal c4 * 100 + digVal c5 * 10 + digVal c6
      let m := digVal m1 * 10 + digVal m2
      let d := digVal d1 * 10 + digVal d2
      if (if neg then 1 ≤ y else True) ∧ 1 ≤ m ∧ m ≤ 12 ∧ 1 ≤ d ∧ d ≤ 31 then
        some (epochDayOfYMD (if neg then -(y : Int) else (y : Int)) m d, rest)
      else none
    else none
  | _ => none

/-- Parse the date part of an ECMAScript Date Time String: either
    `YYYY-MM-DD` or the expanded `±YYYYYY-MM-DD`; returns the denoted epoch
    day and the remaining characters. -/
def parseDateCh : List Char → Option (Int × List Char)
  | [] => none
  | c :: rest =>
    if c = '+' then parseExpandedDate false rest
    else if c = '-' then parseExpandedDate true rest
    else parseSimpleDate (c :: rest)

/-- Parse a `THH:MM:SS.mmmZ` time part (the only time shape this code base
    produces); returns milliseconds within the day. -/
def parseTimeCh : List Char → Option Nat
  | c0 :: h1 :: h2 :: c3 :: m1 :: m2 :: c6 :: s1 :: s2 :: c9 :: f1 :: f2 :: f3 :: [cz] =>
    if c0 = 'T' ∧ c3 = ':' ∧ c6 = ':' ∧ c9 = '.' ∧ cz = 'Z' then
      if isDig h1 && isDig h2 && isDig m1 && isDig m2 && isDig s1 && isDig s2 &&
         isDig f1 && isDig f2 && isDig f3 then
        let h := digVal h1 * 10 + digVal h2
        let mi := digVal m1 * 10 + digVal m2
        let se := digVal s1 * 10 + digVal s2
        let ms := digVal f1 * 100 + digVal f2 * 10 + digVal f3
        if h ≤ 24 ∧ mi ≤ 59 ∧ se ≤ 59 then
          some (h * 3600000 + mi * 60000 + se * 1000 + ms)
        else none
      else none
    else none
  | _ => none

/-- `new Date(s)` for the string shapes relevant to this code base: a
    conforming ECMAScript date or date-time string yields its time value, any
    other string an Invalid Date (`none`). -/
def parseISOString (s : String) : Option Int :=
  match parseDateCh s.data with
  | some (day, rest) =>
    match rest with
    | [] => some (day * 86400000)
    | _ => (parseTimeCh rest).map (fun (ms : Nat) => day * 86400000 + (ms : Int))
  | none => none

/-! ## src/lib/date.ts -/

/-- `toISODateUTC(date) = date.toISOString().split('T')[0]`.  The date part of
    `toISOString` is `formatDay` of the floor-divided day; an Invalid Date
    throws a `RangeError`, modelled as `none`. -/
def toISODateUTC : Option Int → Option String
  | none => none
  | some tv => some (formatDay (tv / 86400000))

/-- `addDaysUTC`: `setUTCDate(getUTCDate() + days)` in UTC is exactly a shift
    by `days * 86400000` milliseconds (UTC has no DST discontinuities). -/
def addDaysUTC : Option Int → Int → Option Int
  | none, _ => none
  | some tv, days => some (tv + days * 86400000)

/-- `fromISODateUTC(isoDate) = new Date(isoDate + 'T00:00:00.000Z')`. -/
def fromISODateUTC (s : String) : Option Int := parseISOString (s ++ "T00:00:00.000Z")

/-- `startOfDayUTC`: `setUTCHours(0,0,0,0)` floors to the UTC day boundary. -/
def startOfDayUTC : Option Int → Option Int
  | none => none
  | some tv => some (tv / 86400000 * 86400000)

/-- The ascending run of epoch days from `cur` to `e` inclusive (fuel-driven
    image of the `while (current <= end)` loop). -/
def dayRangeAux : Nat → Int → Int → List Int
  | 0, _, _ => []
  | fuel + 1, cur, e => if cur ≤ e then cur :: dayRangeAux fuel (cur + 1) e else []

/-- All epoch days from `s` to `e` inclusive. -/
def dayRange (s e : Int) : List Int := dayRangeAux (e + 1 - s).toNat s e

/-- `eachDayInclusive` from src/lib/date.ts: starting at the parsed `from`
    midnight, push `toISODateUTC(current)` while `current <= end`, advancing
    one UTC day.  If either parse is invalid the NaN comparison is false and
    the loop body never runs, giving `[]`. -/
def eachDayInclusive (fromDate toDate : String) : List String :=
  match fromISODateUTC fromDate, fromISODateUTC toDate with
  | some s, some e => (dayRange (s / 86400000) (e / 86400000)).map formatDay
  | _, _ => []

/-- The strict `^\d{4}-\d{2}-\d{2}$` test of `isValidISODate`. -/
def matchesDatePattern (s : String) : Bool :=
  match s.data with
  | [a, b, c, d, '-', e, f, '-', g, h] =>
    isDig a && isDig b && isDig c && isDig d && isDig e && isDig f && isDig g && isDig h
  | _ => false

/-- `isValidISODate` from src/lib/date.ts: regex test, then parse at UTC
    midnight and compare the formatted round trip.  When the pattern matches
    but parsing yields an Invalid Date (e.g. day `32`), `toISODateUTC` throws,
    modelled as `none`. -/
def isValidISODate (s : String) : Option Bool :=
  if matchesDatePattern s then
    match toISODateUTC (fromISODateUTC s) with
    | none => none
    | some t => some (decide (t = s))
  else some false

/-! ## src/unipile/mock.ts -/

structure MockInvitation where
  externalId : String
  senderId : String
  receivedAt : String
deriving DecidableEq

/-- `getDailyInvitationCount`: seeded hash of `tenantId-accountId-date`, mod 6. -/
def getDailyInvitationCount (tenantId accountId date : String) : Nat :=
  simpleHash (tenantId ++ "-" ++ accountId ++ "-" ++ date) % 6

/-- `generateInvitationsForDay`.  `hour`/`minute` are below 24/60, so
    `String(n).padStart(2, '0')` is the two-digit zero-padded rendering
    `padNat 2`; the dash-removing global replace on `date` drops the dashes. -/
def generateInvitationsForDay (tenantId accountId date : String) (count : Nat) :
    List MockInvitation :=
  (List.range count).map fun i =>
    let seed := tenantId ++ "-" ++ accountId ++ "-" ++ date ++ "-" ++ natToDec i
    let hash := simpleHash seed
    let externalId :=
      "inv_" ++ natTo36 hash ++ "_" ++ (⟨date.data.filter (· ≠ '-')⟩ : String) ++ "_" ++ natToDec i
    let senderHash := simpleHash ("sender-" ++ seed)
    let senderId := "sender_" ++ natTo36 senderHash
    let hour := simpleHash ("hour-" ++ seed) % 24
    let minute := simpleHash ("minute-" ++ seed) % 60
    let receivedAt :=
      date ++ "T" ++ (⟨padNat 2 hour⟩ : String) ++ ":" ++ (⟨padNat 2 minute⟩ : String) ++ ":00.000Z"
    ⟨externalId, senderId, receivedAt⟩

/-- The sort comparator `(a, b) => a.receivedAt.localeCompare(b.receivedAt)`:
    on the pure-ASCII timestamp strings involved, `localeCompare` agrees with
    code-point lexicographic order, and JS `Array.prototype.sort` is stable. -/
def receivedAtLe (a b : MockInvitation) : Bool := strLeB a.receivedAt b.receivedAt

/-- `mockFetchInvitations`: per-day deterministic generation over the
    inclusive day range, then a stable sort by `receivedAt`.  The awaited
    `setTimeout` delay has no observable effect on the result. -/
def mockFetchInvitations (tenantId accountId fromISO toISO : String) : List MockInvitation :=
  let days := eachDayInclusive fromISO toISO
  let allInvitations := days.flatMap fun date =>
    generateInvitationsForDay tenantId accountId date
      (getDailyInvitationCount tenantId accountId date)
  stableSortBy receivedAtLe allInvitations

/-! ## Firestore layer (src/lib/firestore.ts, given as unnamed/part_001) -/

structure RawInvitation where
  tenantId : String
  accountId : String
  externalId : String
  receivedAt : String
deriving DecidableEq

structure DailyRollup where
  date : String
  invitationsCount : Nat
  status : String
  updatedAt : String
deriving DecidableEq

/-- A Firestore database: two keyed document collections, modelled as
    association lists from document id/path to document. -/
structure Store where
  invitations : List (String × RawInvitation)
  rollups : List (String × DailyRollup)
deriving DecidableEq

/-- `set(doc(k), v, merge: true)` with a full document: replace in place if the
    id exists, else append. -/
def upsertA {α : Type} : List (String × α) → String → α → List (String × α)
  | [], k, v => [(k, v)]
  | (k', v') :: rest, k, v =>
    if k' = k then (k, v) :: rest else (k', v') :: upsertA rest k v

/-- First-match association-list lookup (`Map.prototype.get`). -/
def lookupA {α : Type} : List (String × α) → String → Option α
  | [], _ => none
  | (k', v) :: rest, k => if k' = k then some v else lookupA rest k

/-- Commit a batch of keyed writes in order. -/
def writeAll {α : Type} (m : List (String × α)) (l : List (String × α)) :
    List (String × α) :=
  l.foldl (fun acc p => upsertA acc p.1 p.2) m

/-- `writeRawInvitations`: one batch of merge-upserts into the `invitations`
    collection, each document keyed by its `externalId`. -/
def writeRawInvitations (st : Store) (invitations : List RawInvitation) : Store :=
  { st with invitations :=
      writeAll st.invitations (invitations.map fun i => (i.externalId, i)) }

/-- The Firestore `where` clauses of `queryInvitationsByDateRange`: equality on
    tenant and account, then `receivedAt >= lower` and `receivedAt < upper`
    in Firestore's bytewise string order. -/
def invitationMatches (tenantId accountId lower upper : String)
    (inv : RawInvitation) : Bool :=
  inv.tenantId == tenantId && inv.accountId == accountId &&
  strLeB lower inv.receivedAt && strLtB inv.receivedAt upper

/-- `dateCountMap.set(date, (dateCountMap.get(date) || 0) + 1)`: bump the
    count at a key, preserving Map insertion order. -/
def bumpCount : List (String × Nat) → String → List (String × Nat)
  | [], d => [(d, 1)]
  | (k, c) :: rest, d => if k = d then (k, c + 1) :: rest else (k, c) :: bumpCount rest d

/-- Fold the snapshot into per-date counts; the date key of each document is
    `toISODateUTC(new Date(data.receivedAt))`, which throws (`none`) if a
    stored `receivedAt` does not parse. -/
def groupByDateAux : List (String × Nat) → List RawInvitation → Option (List (String × Nat))
  | acc, [] => some acc
  | acc, inv :: rest =>
    match toISODateUTC (parseISOString inv.receivedAt) with
    | some d => groupByDateAux (bumpCount acc d) rest
    | none => none

/-- `queryInvitationsByDateRange`: bounds are
    `startOfDayUTC(fromISODateUTC(fromDate)).toISOString()` (inclusive) and
    `startOfDayUTC(addDaysUTC(fromISODateUTC(toDate), 1)).toISOString()`
    (exclusive); `toISOString` on an invalid parse throws (`none`).  A range
    filter makes Firestore return documents ordered by the filtered field,
    modelled by a stable sort on `receivedAt`; the snapshot is then grouped
    into per-date counts. -/
def queryInvitationsByDateRange (st : Store) (tenantId accountId fromDate toDate : String) :
    Option (List (String × Nat)) :=
  match startOfDayUTC (fromISODateUTC fromDate),
        startOfDayUTC (addDaysUTC (fromISODateUTC toDate) 1) with
  | some lo, some hi =>
    let lower := isoOfTV lo
    let upper := isoOfTV hi
    let docs := (st.invitations.map Prod.snd).filter (invitationMatches tenantId accountId lower upper)
    groupByDateAux [] (stableSortBy (fun a b => strLeB a.receivedAt b.receivedAt) docs)
  | _, _ => none

/-- `writeDailyRollups`: one batch of merge-upserts, one rollup document per
    `(date, count)` pair at path `metrics/T/accounts/A/daily/DATE`, each
    stamped `status: 'ok'` by the caller and `updatedAt = now` here. -/
def writeDailyRollups (st : Store) (tenantId accountId now : String)
    (rollups : List (String × Nat)) : Store :=
  { st with rollups :=
      writeAll st.rollups (rollups.map fun r =>
        ("metrics/" ++ tenantId ++ "/accounts/" ++ accountId ++ "/daily/" ++ r.1,
         (⟨r.1, r.2, "ok", now⟩ : DailyRollup))) }

/-- Total of the per-date counts of a query result. -/
def sumCounts (l : List (String × Nat)) : Nat := (l.map Prod.snd).sum

/-- `getTotalInvitationsInPeriod`: reduce the range query to a single sum. -/
def getTotalInvitationsInPeriod (st : Store) (tenantId accountId fromDate toDate : String) :
    Option Nat :=
  (queryInvitationsByDateRange st tenantId accountId fromDate toDate).map sumCounts

/-! ## src/routes/metrics.ts -/

/-- An Express query value: a string, or anything `typeof v !== 'string'`
    rejects (arrays, objects). -/
inductive QueryVal
  | str (s : String)
  | nonString
deriving DecidableEq

/-- The four query parameters; `fromQ`/`toQ` stand for `from`/`to` (reserved
    words in Lean). -/
structure QueryObj where
  tenantId : Option QueryVal
  accountId : Option QueryVal
  fromQ : Option QueryVal
  toQ : Option QueryVal

/-- `!v || typeof v !== 'string'`: missing, non-string, and the falsy empty
    string are all rejected. -/
def checkStringParam : Option QueryVal → Option String
  | some (.str s) => if s = "" then none else some s
  | _ => none

/-- Result of `validateQueryParams`: an error response, a thrown exception
    (propagated out of the function), or the validated parameters. -/
inductive ValidationResult
  | invalid (error : String)
  | thrown
  | ok (tenantId accountId fromS toS : String)
deriving DecidableEq

/-- JS `>` on two Dates: false whenever either is Invalid (NaN). -/
def optTVgt : Option Int → Option Int → Bool
  | some a, some b => decide (b < a)
  | _, _ => false

/-- `validateQueryParams` from src/routes/metrics.ts, clause by clause. -/
def validateQueryParams (q : QueryObj) : ValidationResult :=
  match checkStringParam q.tenantId with
  | none => .invalid "tenantId is required and must be a string"
  | some _tenantId =>
  match checkStringParam q.accountId with
  | none => .invalid "accountId is required and must be a string"
  | some _accountId =>
  match checkStringParam q.fromQ with
  | none => .invalid "from is required and must be a string in YYYY-MM-DD format"
  | some fromS =>
  match checkStringParam q.toQ with
  | none => .invalid "to is required and must be a string in YYYY-MM-DD format"
  | some toS =>
  match isValidISODate fromS with
  | none => .thrown
  | some false => .invalid "from must be a valid date in YYYY-MM-DD format"
  | some true =>
  match isValidISODate toS with
  | none => .thrown
  | some false => .invalid "to must be a valid date in YYYY-MM-DD format"
  | some true =>
  if optTVgt (fromISODateUTC fromS) (fromISODateUTC toS) then
    .invalid "from date must be less than or equal to to date"
  else .ok _tenantId _accountId fromS toS

/-- `createZeroFilledCounts`: a fresh Map, `set(date, actual.get(date) || 0)`
    over the date range in order (a present count of 0 and a missing entry
    both yield 0). -/
def createZeroFilledCounts (dateRange : List String) (actualCounts : List (String × Nat)) :
    List (String × Nat) :=
  dateRange.foldl (fun zf date => upsertA zf date ((lookupA actualCounts date).getD 0)) []

structure MetricDataPoint where
  date : String
  value : Nat
  status : String
  previousPeriodComparison : Option Nat
deriving DecidableEq

/-- The store interactions the handler can perform, in order of occurrence. -/
inductive StoreOp
  | writeInvitations
  | queryInvitations
  | writeRollups
  | queryPrevious
deriving DecidableEq

/-- Observable outcome of one handler invocation: HTTP status, JSON body,
    error message, resulting store, and the store operations performed. -/
structure HandlerOutcome where
  status : Nat
  body : List MetricDataPoint
  errorMsg : Option String
  store : Store
  ops : List StoreOp
deriving DecidableEq

structure PipelineResult where
  store : Store
  counts : Option (List (String × Nat))
deriving DecidableEq

/-- Steps 1-5 of the handler: generate events, upsert them, re-read the store,
    zero-fill over the requested range, and upsert the daily rollups.
    `counts` is `none` when the range query threw. -/
def runIngestionPipeline (st : Store) (now tenantId accountId fromS toS : String) :
    PipelineResult :=
  let mockInvitations := mockFetchInvitations tenantId accountId fromS toS
  let rawInvitations := mockInvitations.map fun inv =>
    (⟨tenantId, accountId, inv.externalId, inv.receivedAt⟩ : RawInvitation)
  let st1 := writeRawInvitations st rawInvitations
  match queryInvitationsByDateRange st1 tenantId accountId fromS toS with
  | none => ⟨st1, none⟩
  | some invitationResults =>
    let actualCountsMap := invitationResults.foldl (fun m p => upsertA m p.1 p.2) []
    let zeroFilledCounts := createZeroFilledCounts (eachDayInclusive fromS toS) actualCountsMap
    ⟨writeDailyRollups st1 tenantId accountId now zeroFilledCounts, some zeroFilledCounts⟩

/-- Step 6's comparison window bounds: `toISODateUTC` of `from` shifted by
    -7 and -1 days. -/
def previousPeriodBounds (fromS : String) : Option String × Option String :=
  (toISODateUTC (addDaysUTC (fromISODateUTC fromS) (-7)),
   toISODateUTC (addDaysUTC (fromISODateUTC fromS) (-1)))

/-- `getDailyInvitationMetrics`: validation, the ingestion pipeline, the
    previous-period total, and response assembly.  Any exception surfaces as
    the 500 catch-all; validation errors return 400 before any store access. -/
def getDailyInvitationMetrics (st : Store) (now : String) (q : QueryObj) : HandlerOutcome :=
  match validateQueryParams q with
  | .invalid e => ⟨400, [], some e, st, []⟩
  | .thrown => ⟨500, [], some "Internal server error", st, []⟩
  | .ok tenantId accountId fromS toS =>
    let r := runIngestionPipeline st now tenantId accountId fromS toS
    match r.counts with
    | none => ⟨500, [], some "Internal server error", r.store,
               [.writeInvitations, .queryInvitations]⟩
    | some zeroFilledCounts =>
      match previousPeriodBounds fromS with
      | (some previousFromISO, some previousToISO) =>
        match getTotalInvitationsInPeriod r.store tenantId accountId previousFromISO previousToISO with
        | none => ⟨500, [], some "Internal server error", r.store,
                   [.writeInvitations, .queryInvitations, .writeRollups, .queryPrevious]⟩
        | some previousPeriodComparison =>
          let data := zeroFilledCounts.enum.map fun p =>
            (⟨p.2.1, p.2.2, "ok",
              if p.1 = 0 then some previousPeriodComparison else none⟩ : MetricDataPoint)
          ⟨200, data, none, r.store,
           [.writeInvitations, .queryInvitations, .writeRollups, .queryPrevious]⟩
      | _ => ⟨500, [], some "Internal server error", r.store,
              [.writeInvitations, .queryInvitations, .writeRollups]⟩

/-! ## Permutation facts about the stable sort -/

theorem mergeRuns_perm {α : Type} (le : α → α → Bool) :
    ∀ (fuel : Nat) (as bs : List α), (mergeRuns le fuel as bs).Perm (as ++ bs) := by
  intro fuel
  induction fuel with
  | zero => intro as bs; simp [mergeRuns]
  | succ fuel ih =>
    intro as bs
    match as, bs with
    | [], bs => simp [mergeRuns]
    | a :: as, [] => simp [mergeRuns]
    | a :: as, b :: bs =>
      simp only [mergeRuns]
      by_cases h : le a b = true
      · simpa [h] using (ih as (b :: bs)).cons a
      · simp only [h, if_false]
        exact ((ih (a :: as) bs).cons b).trans List.perm_middle.symm

theorem sortByAux_perm {α : Type} (le : α → α → Bool) :
    ∀ (fuel : Nat) (l : List α), (sortByAux le fuel l).Perm l := by
  intro fuel
  induction fuel with
  | zero => intro l; simp [sortByAux]
  | succ fuel ih =>
    intro l
    simp only [sortByAux]
    by_cases h : l.length ≤ 1
    · simp [h]
    · simp only [h, if_false]
      refine (mergeRuns_perm le l.length _ _).trans ?_
      have hp := (ih (l.take (l.length / 2))).append (ih (l.drop (l.length / 2)))
      simpa [List.take_append_drop] using hp

theorem stableSortBy_perm {α : Type} (le : α → α → Bool) (l : List α) :
    (stableSortBy le l).Perm l := sortByAux_perm le l.length l

theorem mem_stableSortBy {α : Type} (le : α → α → Bool) (l : List α) (a : α) :
    a ∈ stableSortBy le l ↔ a ∈ l := (stableSortBy_perm le l).mem_iff

theorem length_stableSortBy {α : Type} (le : α → α → Bool) (l : List α) :
    (stableSortBy le l).length = l.length := (stableSortBy_perm le l).length_eq

/-! ## The day-range loop -/

theorem dayRangeAux_eq :
    ∀ (fuel : Nat) (cur e : Int), (e + 1 - cur).toNat = fuel →
      dayRangeAux fuel cur e = (List.range fuel).map (fun i : Nat => cur + (i : Int)) := by
  intro fuel
  induction fuel with
  | zero => intro cur e _; simp [dayRangeAux]
  | succ fuel ih =>
    intro cur e hf
    have hle : cur ≤ e := by omega
    have h2 : (e + 1 - (cur + 1)).toNat = fuel := by omega
    simp only [dayRangeAux, if_pos hle]
    rw [ih (cur + 1) e h2, List.range_succ_eq_map, List.map_cons, List.map_map]
    congr 1
    · simp
    · apply List.map_congr_left
      intro i _
      simp only [Function.comp_apply, Nat.succ_eq_add_one]
      push_cast
      ring

theorem dayRange_eq (s e : Int) :
    dayRange s e = (List.range (e + 1 - s).toNat).map (fun i : Nat => s + (i : Int)) :=
  dayRangeAux_eq _ s e rfl

theorem dayRange_length (s e : Int) : (dayRange s e).length = (e + 1 - s).toNat := by
  rw [dayRange_eq, List.length_map, List.length_range]

theorem mem_dayRange (s e x : Int) : x ∈ dayRange s e ↔ s ≤ x ∧ x ≤ e := by
  rw [dayRange_eq]
  simp only [List.mem_map, List.mem_range]
  constructor
  · rintro ⟨i, hi, rfl⟩
    omega
  · intro hx
    exact ⟨(x - s).toNat, by omega, by omega⟩

theorem dayRange_pairwise (s e : Int) : (dayRange s e).Pairwise (· < ·) := by
  rw [dayRange_eq]
  refine (List.pairwise_map).2 ?_
  refine (List.pairwise_lt_range _).imp ?_
  intro a b h
  omega

/-! ## Association-list store lemmas -/

/-- Document ids present in a collection. -/
def keysOf {α : Type} (m : List (String × α)) : List String := m.map Prod.fst

/-- A real Firestore collection has one document per id. -/
def NodupKeys {α : Type} (m : List (String × α)) : Prop := (keysOf m).Nodup

theorem lookupA_upsertA_self {α : Type} (m : List (String × α)) (k : String) (v : α) :
    lookupA (upsertA m k v) k = some v := by
  induction m with
  | nil => simp [upsertA, lookupA]
  | cons p rest ih =>
    by_cases h : p.1 = k
    · simp [upsertA, h, lookupA]
    · simpa [upsertA, h, lookupA] using ih

theorem keysOf_upsertA {α : Type} (m : List (String × α)) (k : String) (v : α) :
    keysOf (upsertA m k v) = if k ∈ keysOf m then keysOf m else keysOf m ++ [k] := by
  induction m with
  | nil => simp [upsertA, keysOf]
  | cons p rest ih =>
    by_cases h : p.1 = k
    · simp [upsertA, h, keysOf]
    · simp only [upsertA, if_neg h, keysOf, List.map_cons] at *
      rw [ih]
      by_cases hk : k ∈ rest.map Prod.fst
      · simp [hk, Ne.symm h]
      · simp [hk, Ne.symm h]

theorem mem_keysOf_upsertA {α : Type} (m : List (String × α)) (k k' : String) (v : α) :
    k' ∈ keysOf (upsertA m k v) ↔ k' = k ∨ k' ∈ keysOf m := by
  rw [keysOf_upsertA]
  by_cases h : k ∈ keysOf m
  · simp only [if_pos h]
    constructor
    · exact fun hm => Or.inr hm
    · rintro (rfl | hm)
      · exact h
      · exact hm
  · simp only [if_neg h, List.mem_append, List.mem_singleton]
    tauto

theorem nodupKeys_upsertA {α : Type} (m : List (String × α)) (k : String) (v : α)
    (h : NodupKeys m) : NodupKeys (upsertA m k v) := by
  unfold NodupKeys at *
  rw [keysOf_upsertA]
  by_cases hk : k ∈ keysOf m
  · simpa [hk] using h
  · simpa [hk, List.nodup_append] using h

theorem upsertA_upsertA_same {α : Type} (m : List (String × α)) (k : String) (v w : α) :
    upsertA (upsertA m k v) k w = upsertA m k w := by
  induction m with
  | nil => simp [upsertA]
  | cons p rest ih =>
    by_cases h : p.1 = k
    · simp [upsertA, h]
    · simp [upsertA, h, ih]

theorem upsertA_comm {α : Type} (m : List (String × α)) (k k' : String) (v v' : α)
    (h : k ≠ k') (hk : k ∈ keysOf m) :
    upsertA (upsertA m k v) k' v' = upsertA (upsertA m k' v') k v := by
  induction m with
  | nil => simp [keysOf] at hk
  | cons p rest ih =>
    by_cases h1 : p.1 = k
    · simp [upsertA, h1, Ne.symm h, h]
    · by_cases h2 : p.1 = k'
      · simp [upsertA, h1, h2, h, Ne.symm h]
      · have hk' : k ∈ keysOf rest := by
          simpa [keysOf, h1, Ne.symm h1] using hk
        simp [upsertA, h1, h2, ih hk']

theorem upsertA_lookup_eq {α : Type} (m : List (String × α)) (k : String) (v : α)
    (h : lookupA m k = some v) : upsertA m k v = m := by
  induction m with
  | nil => simp [lookupA] at h
  | cons p rest ih =>
    by_cases h1 : p.1 = k
    · simp only [lookupA, if_pos h1] at h
      injection h with h2
      simp only [upsertA, if_pos h1]
      rw [← h1, ← h2]
    · simp only [lookupA, if_neg h1] at h
      simp [upsertA, h1, ih h]

theorem upsertA_not_mem {α : Type} (m : List (String × α)) (k : String) (v : α)
    (h : k ∉ keysOf m) : upsertA m k v = m ++ [(k, v)] := by
  induction m with
  | nil => simp [upsertA]
  | cons p rest ih =>
    simp only [keysOf, List.map_cons, List.mem_cons, not_or] at h
    have hkp : p.1 ≠ k := fun hh => h.1 hh.symm
    simp only [upsertA, if_neg hkp, List.cons_append]
    rw [ih h.2]

theorem lookupA_upsertA_ne {α : Type} (m : List (String × α)) (k k' : String) (v : α)
    (h : k' ≠ k) : lookupA (upsertA m k v) k' = lookupA m k' := by
  induction m with
  | nil => simp [upsertA, lookupA, Ne.symm h]
  | cons p rest ih =>
    by_cases h1 : p.1 = k
    · simp [upsertA, lookupA, h1, Ne.symm h, h]
    · simp [upsertA, lookupA, h1, ih]

theorem lookupA_writeAll_not_mem {α : Type} (l : List (String × α)) :
    ∀ (m : List (String × α)) (k : String), k ∉ keysOf l →
      lookupA (writeAll m l) k = lookupA m k := by
  induction l with
  | nil => intro m k _; rfl
  | cons p rest ih =>
    intro m k hk
    simp only [keysOf, List.map_cons, List.mem_cons, not_or] at hk
    show lookupA (writeAll (upsertA m p.1 p.2) rest) k = _
    rw [ih _ k hk.2, lookupA_upsertA_ne _ _ _ _ hk.1]

theorem mem_keysOf_writeAll_left {α : Type} (l : List (String × α)) :
    ∀ (m : List (String × α)) (k : String), k ∈ keysOf m → k ∈ keysOf (writeAll m l) := by
  induction l with
  | nil => intro m k h; exact h
  | cons p rest ih =>
    intro m k h
    exact ih _ k ((mem_keysOf_upsertA m p.1 k p.2).2 (Or.inr h))

theorem nodupKeys_writeAll {α : Type} (l : List (String × α)) :
    ∀ (m : List (String × α)), NodupKeys m → NodupKeys (writeAll m l) := by
  induction l with
  | nil => intro m h; exact h
  | cons p rest ih =>
    intro m h
    exact ih _ (nodupKeys_upsertA m p.1 p.2 h)

theorem writeAll_upsertA_absorb {α : Type} (l : List (String × α)) :
    ∀ (u : List (String × α)) (k : String) (v : α),
      NodupKeys u → k ∈ keysOf u → k ∈ keysOf l →
      writeAll (upsertA u k v) l = writeAll u l := by
  induction l with
  | nil => intro u k v _ _ hl; simp [keysOf] at hl
  | cons p rest ih =>
    intro u k v hnd hku hkl
    show writeAll (upsertA (upsertA u k v) p.1 p.2) rest = writeAll (upsertA u p.1 p.2) rest
    by_cases h1 : p.1 = k
    · rw [h1, upsertA_upsertA_same]
    · have hcomm := upsertA_comm u k p.1 v p.2 (fun hh => h1 hh.symm) hku
      rw [hcomm]
      have hkl' : k ∈ keysOf rest := by
        have hne : k ≠ p.1 := fun hh => h1 hh.symm
        simpa [keysOf, hne] using hkl
      exact ih _ k v (nodupKeys_upsertA u p.1 p.2 hnd)
        ((mem_keysOf_upsertA u p.1 k p.2).2 (Or.inr hku)) hkl'

theorem writeAll_writeAll_self {α : Type} (l : List (String × α)) :
    ∀ (s : List (String × α)), NodupKeys s →
      writeAll (writeAll s l) l = writeAll s l := by
  induction l with
  | nil => intro s _; rfl
  | cons p rest ih =>
    intro s hnd
    show writeAll (upsertA (writeAll (upsertA s p.1 p.2) rest) p.1 p.2) rest = _
    by_cases hmem : p.1 ∈ keysOf rest
    · rw [writeAll_upsertA_absorb rest _ p.1 p.2
        (nodupKeys_writeAll rest _ (nodupKeys_upsertA s p.1 p.2 hnd))
        (mem_keysOf_writeAll_left rest _ p.1
          ((mem_keysOf_upsertA s p.1 p.1 p.2).2 (Or.inl rfl))) hmem]
      exact ih _ (nodupKeys_upsertA s p.1 p.2 hnd)
    · have hlook : lookupA (writeAll (upsertA s p.1 p.2) rest) p.1 = some p.2 := by
        rw [lookupA_writeAll_not_mem rest _ p.1 hmem, lookupA_upsertA_self]
      rw [upsertA_lookup_eq _ _ _ hlook]
      exact ih _ (nodupKeys_upsertA s p.1 p.2 hnd)

/-! ## Correctness of the calendar engine -/

theorem daysInYearN_ge (y : Nat) : 365 ≤ daysInYearN y := by
  unfold daysInYearN
  split <;> omega

theorem daysInYearN_le (y : Nat) : daysInYearN y ≤ 366 := by
  unfold daysInYearN
  split <;> omega

theorem isLeapY_true_iff (y : Nat) :
    isLeapY y = true ↔ ((y % 4 = 0 ∧ ¬ y % 100 = 0) ∨ y % 400 = 0) := by
  simp [isLeapY, Bool.or_eq_true, Bool.and_eq_true, beq_iff_eq, bne_iff_ne]

set_option maxHeartbeats 1600000 in
theorem daysBeforeYear_succ (y : Nat) :
    daysBeforeYear (y + 1) = daysBeforeYear y + daysInYearN y := by
  have hiff := isLeapY_true_iff y
  unfold daysInYearN
  by_cases h : isLeapY y = true
  · rw [if_pos h]
    rw [hiff] at h
    unfold daysBeforeYear
    omega
  · rw [if_neg h]
    have h' : ¬((y % 4 = 0 ∧ ¬ y % 100 = 0) ∨ y % 400 = 0) := fun hc => h (hiff.2 hc)
    push_neg at h'
    by_cases h4 : y % 4 = 0
    · have h100 : y % 100 = 0 := h'.1 h4
      have h400 : y % 400 ≠ 0 := h'.2
      unfold daysBeforeYear
      omega
    · unfold daysBeforeYear
      omega

theorem daysBeforeYear_mono {a b : Nat} (h : a ≤ b) :
    daysBeforeYear a ≤ daysBeforeYear b := by
  induction b with
  | zero =>
    have ha : a = 0 := by omega
    subst ha
    exact Nat.le_refl _
  | succ b ih =>
    rcases Nat.lt_or_ge a (b + 1) with hlt | hge
    · have h1 := ih (by omega)
      have h2 := daysBeforeYear_succ b
      have h3 := daysInYearN_ge b
      omega
    · have ha : a = b + 1 := by omega
      subst ha
      exact Nat.le_refl _

/-- Total length of the `k` consecutive years starting at `y0`. -/
def sumDaysFrom (y0 : Nat) : Nat → Nat
  | 0 => 0
  | k + 1 => daysInYearN y0 + sumDaysFrom (y0 + 1) k

theorem sumDaysFrom_ge (k : Nat) : ∀ y0, 365 * k ≤ sumDaysFrom y0 k := by
  induction k with
  | zero => intro y0; simp [sumDaysFrom]
  | succ k ih =>
    intro y0
    have h1 := daysInYearN_ge y0
    have h2 := ih (y0 + 1)
    simp only [sumDaysFrom]
    omega

theorem yearOfAux_correct :
    ∀ (fuel y0 n : Nat), n < sumDaysFrom y0 fuel →
      daysBeforeYear (yearOfAux fuel y0 n).1 + (yearOfAux fuel y0 n).2 =
        daysBeforeYear y0 + n ∧
      (yearOfAux fuel y0 n).2 < daysInYearN (yearOfAux fuel y0 n).1 ∧
      y0 ≤ (yearOfAux fuel y0 n).1 := by
  intro fuel
  induction fuel with
  | zero => intro y0 n h; simp [sumDaysFrom] at h
  | succ fuel ih =>
    intro y0 n h
    by_cases hn : n < daysInYearN y0
    · simp [yearOfAux, hn]
    · simp only [yearOfAux, if_neg hn]
      simp only [sumDaysFrom] at h
      have hrec := ih (y0 + 1) (n - daysInYearN y0) (by omega)
      have hsucc := daysBeforeYear_succ y0
      exact ⟨by omega, hrec.2.1, by omega⟩

theorem daysBeforeYear_400 (q : Nat) : daysBeforeYear (400 * q) = 146097 * q := by
  unfold daysBeforeYear
  omega

theorem yearOfRD_spec (n : Nat) :
    daysBeforeYear (yearOfRD n).1 + (yearOfRD n).2 = n ∧
    (yearOfRD n).2 < daysInYearN (yearOfRD n).1 := by
  have hq : 146097 * (n / 146097) ≤ n := Nat.mul_div_le n 146097
  have hlt : n - 146097 * (n / 146097) < sumDaysFrom (400 * (n / 146097)) 402 := by
    have h1 : n % 146097 < 146097 := Nat.mod_lt n (by norm_num)
    have h2 := sumDaysFrom_ge 402 (400 * (n / 146097))
    omega
  have h := yearOfAux_correct 402 (400 * (n / 146097)) (n - 146097 * (n / 146097)) hlt
  have h400 := daysBeforeYear_400 (n / 146097)
  have hdef : yearOfRD n = yearOfAux 402 (400 * (n / 146097)) (n - 146097 * (n / 146097)) := rfl
  rw [hdef]
  exact ⟨by omega, h.2.1⟩

/-- Uniqueness of the year decomposition of a rata die. -/
theorem year_decomp_unique {y r y' r' : Nat}
    (h : daysBeforeYear y + r = daysBeforeYear y' + r')
    (hr : r < daysInYearN y) (hr' : r' < daysInYearN y') : y = y' ∧ r = r' := by
  rcases Nat.lt_trichotomy y y' with hlt | heq | hgt
  · exfalso
    have h1 : daysBeforeYear (y + 1) ≤ daysBeforeYear y' := daysBeforeYear_mono hlt
    have h2 := daysBeforeYear_succ y
    omega
  · refine ⟨heq, ?_⟩
    subst heq
    omega
  · exfalso
    have h1 : daysBeforeYear (y' + 1) ≤ daysBeforeYear y := daysBeforeYear_mono hgt
    have h2 := daysBeforeYear_succ y'
    omega

theorem yearOfRD_of_decomp {y r : Nat} (hr : r < daysInYearN y) :
    yearOfRD (daysBeforeYear y + r) = (y, r) := by
  have h := yearOfRD_spec (daysBeforeYear y + r)
  have hu := year_decomp_unique h.1 h.2 hr
  cases hp : yearOfRD (daysBeforeYear y + r)
  rw [hp] at hu
  simp_all

/-- Month-table facts, by finite check over both leap flags. -/
theorem monthOf_table :
    ∀ (leap : Bool) (m : Nat), m < 13 → ∀ dom, dom < 31 →
      1 ≤ m → dom < daysInMonthB leap m →
      monthOfDOY leap (daysBeforeMonthB leap m + dom) = (m, dom) := by decide

theorem monthOf_complete :
    ∀ (leap : Bool) (doy : Nat), doy < 366 → (leap = false → doy < 365) →
      1 ≤ (monthOfDOY leap doy).1 ∧ (monthOfDOY leap doy).1 ≤ 12 ∧
      (monthOfDOY leap doy).2 < daysInMonthB leap (monthOfDOY leap doy).1 ∧
      daysBeforeMonthB leap (monthOfDOY leap doy).1 + (monthOfDOY leap doy).2 = doy := by
  decide

theorem doy_bound :
    ∀ (leap : Bool) (m : Nat), m < 13 → ∀ d, d < 32 →
      1 ≤ m → 1 ≤ d → d ≤ daysInMonthB leap m →
      daysBeforeMonthB leap m + (d - 1) < (if leap then 366 else 365) := by decide

theorem daysInMonthB_le (leap : Bool) (m : Nat) : daysInMonthB leap m ≤ 31 := by
  unfold daysInMonthB
  split
  · split <;> omega
  · split <;> omega

theorem civilOfRD_ratadie (y m d : Nat) (hm1 : 1 ≤ m) (hm2 : m ≤ 12)
    (hd1 : 1 ≤ d) (hd2 : d ≤ daysInMonthB (isLeapY y) m) :
    civilOfRD (ratadie y m d) = (y, m, d) := by
  have h31 := daysInMonthB_le (isLeapY y) m
  have hdoy : daysBeforeMonthB (isLeapY y) m + (d - 1) < daysInYearN y := by
    have h := doy_bound (isLeapY y) m (by omega) d (by omega) hm1 hd1 hd2
    unfold daysInYearN
    exact h
  have hrd : ratadie y m d = daysBeforeYear y + (daysBeforeMonthB (isLeapY y) m + (d - 1)) := by
    unfold ratadie
    omega
  have hyear := yearOfRD_of_decomp hdoy
  have hmonth := monthOf_table (isLeapY y) m (by omega) (d - 1) (by omega) hm1 (by omega)
  have hdef : civilOfRD (ratadie y m d) =
      ((yearOfRD (ratadie y m d)).1,
       (monthOfDOY (isLeapY (yearOfRD (ratadie y m d)).1) (yearOfRD (ratadie y m d)).2).1,
       (monthOfDOY (isLeapY (yearOfRD (ratadie y m d)).1) (yearOfRD (ratadie y m d)).2).2 + 1) :=
    rfl
  rw [hdef, hrd, hyear]
  dsimp only
  rw [hmonth]
  dsimp only
  simp only [Prod.mk.injEq, true_and]
  omega

theorem civilOfRD_spec (n : Nat) :
    1 ≤ (civilOfRD n).2.1 ∧ (civilOfRD n).2.1 ≤ 12 ∧ 1 ≤ (civilOfRD n).2.2 ∧
    (civilOfRD n).2.2 ≤ daysInMonthB (isLeapY (civilOfRD n).1) (civilOfRD n).2.1 ∧
    ratadie (civilOfRD n).1 (civilOfRD n).2.1 (civilOfRD n).2.2 = n := by
  have hy := yearOfRD_spec n
  have hle := daysInYearN_le (yearOfRD n).1
  have hlt365 : isLeapY (yearOfRD n).1 = false → (yearOfRD n).2 < 365 := by
    intro hfalse
    have : daysInYearN (yearOfRD n).1 = 365 := by
      unfold daysInYearN
      rw [hfalse]
      rfl
    omega
  have hm := monthOf_complete (isLeapY (yearOfRD n).1) (yearOfRD n).2 (by omega) hlt365
  have hdef : civilOfRD n =
      ((yearOfRD n).1,
       (monthOfDOY (isLeapY (yearOfRD n).1) (yearOfRD n).2).1,
       (monthOfDOY (isLeapY (yearOfRD n).1) (yearOfRD n).2).2 + 1) := rfl
  rw [hdef]
  dsimp only
  refine ⟨hm.1, hm.2.1, by omega, by omega, ?_⟩
  unfold ratadie
  have h1 := hm.2.2.2
  have h2 := hy.1
  omega

theorem yearOfRD_lt_10000 {n : Nat} (h : n < daysBeforeYear 10000) :
    (yearOfRD n).1 < 10000 := by
  by_contra h'
  have h1 : daysBeforeYear 10000 ≤ daysBeforeYear (yearOfRD n).1 :=
    daysBeforeYear_mono (by omega)
  have h2 := yearOfRD_spec n
  omega

/-! ## Digit-level format and parse lemmas -/

theorem digitChar_toNat {k : Nat} (h : k < 10) : (digitChar k).toNat = 48 + k := by
  interval_cases k <;> decide

theorem isDig_digitChar {k : Nat} (h : k < 10) : isDig (digitChar k) = true := by
  interval_cases k <;> decide

theorem digVal_digitChar {k : Nat} (h : k < 10) : digVal (digitChar k) = k := by
  interval_cases k <;> decide

theorem digitChar_ne_plus {k : Nat} (h : k < 10) : digitChar k ≠ '+' := by
  interval_cases k <;> decide

theorem digitChar_ne_dash {k : Nat} (h : k < 10) : digitChar k ≠ '-' := by
  interval_cases k <;> decide

theorem padNat_two (a b : Nat) (ha : a < 10) (hb : b < 10) :
    padNat 2 (10 * a + b) = [digitChar a, digitChar b] := by
  show [digitChar ((10 * a + b) / 10 ^ 1 % 10), digitChar ((10 * a + b) % 10 ^ 1 / 10 ^ 0 % 10)] = _
  have e1 : (10 * a + b) / 10 ^ 1 % 10 = a := by omega
  have e2 : (10 * a + b) % 10 ^ 1 / 10 ^ 0 % 10 = b := by omega
  rw [e1, e2]

theorem padNat_four (a b c d : Nat) (ha : a < 10) (hb : b < 10) (hc : c < 10) (hd : d < 10) :
    padNat 4 (1000 * a + 100 * b + 10 * c + d) =
      [digitChar a, digitChar b, digitChar c, digitChar d] := by
  set n := 1000 * a + 100 * b + 10 * c + d with hn
  show [digitChar (n / 10 ^ 3 % 10), digitChar (n % 10 ^ 3 / 10 ^ 2 % 10),
        digitChar (n % 10 ^ 3 % 10 ^ 2 / 10 ^ 1 % 10),
        digitChar (n % 10 ^ 3 % 10 ^ 2 % 10 ^ 1 / 10 ^ 0 % 10)] = _
  have e1 : n / 10 ^ 3 % 10 = a := by omega
  have e2 : n % 10 ^ 3 / 10 ^ 2 % 10 = b := by omega
  have e3 : n % 10 ^ 3 % 10 ^ 2 / 10 ^ 1 % 10 = c := by omega
  have e4 : n % 10 ^ 3 % 10 ^ 2 % 10 ^ 1 / 10 ^ 0 % 10 = d := by omega
  rw [e1, e2, e3, e4]

theorem civilOfRD_fst (n : Nat) : (civilOfRD n).1 = (yearOfRD n).1 := rfl

theorem civilOfDay_nonneg {day : Int} (h0 : 0 ≤ day + (epochRD : Int)) :
    civilOfDay day = (((civilOfRD (day + (epochRD : Int)).toNat).1 : Int),
                      (civilOfRD (day + (epochRD : Int)).toNat).2.1,
                      (civilOfRD (day + (epochRD : Int)).toNat).2.2) := by
  unfold civilOfDay
  dsimp only
  rw [if_pos h0]

theorem formatDayChars_valid {day : Int} (h0 : 0 ≤ day + (epochRD : Int))
    (h1 : day + (epochRD : Int) < (daysBeforeYear 10000 : Int)) :
    formatDayChars day =
      padNat 4 (civilOfRD (day + (epochRD : Int)).toNat).1 ++
      '-' :: padNat 2 (civilOfRD (day + (epochRD : Int)).toNat).2.1 ++
      '-' :: padNat 2 (civilOfRD (day + (epochRD : Int)).toNat).2.2 := by
  have hyr : (civilOfRD (day + (epochRD : Int)).toNat).1 < 10000 := by
    rw [civilOfRD_fst]
    exact yearOfRD_lt_10000 (by omega)
  unfold formatDayChars
  rw [civilOfDay_nonneg h0]
  dsimp only
  rw [if_pos ⟨Int.natCast_nonneg _, by exact_mod_cast Nat.le_of_lt_succ (by omega)⟩]
  rw [Int.toNat_natCast]

theorem parseSimpleDate_digits (a b c d e f g h : Nat) (rest : List Char)
    (ha : a < 10) (hb : b < 10) (hc : c < 10) (hd : d < 10)
    (he : e < 10) (hf : f < 10) (hg : g < 10) (hh : h < 10)
    (hm1 : 1 ≤ 10 * e + f) (hm2 : 10 * e + f ≤ 12)
    (hd1 : 1 ≤ 10 * g + h) (hd2 : 10 * g + h ≤ 31) :
    parseSimpleDate (digitChar a :: digitChar b :: digitChar c :: digitChar d :: '-' ::
        digitChar e :: digitChar f :: '-' :: digitChar g :: digitChar h :: rest) =
      some ((ratadie (1000 * a + 100 * b + 10 * c + d) (10 * e + f) (10 * g + h) : Int)
              - (epochRD : Int), rest) := by
  simp only [parseSimpleDate]
  rw [isDig_digitChar ha, isDig_digitChar hb, isDig_digitChar hc, isDig_digitChar hd,
      isDig_digitChar he, isDig_digitChar hf, isDig_digitChar hg, isDig_digitChar hh]
  simp only [Bool.and_self, if_true]
  rw [digVal_digitChar ha, digVal_digitChar hb, digVal_digitChar hc, digVal_digitChar hd,
      digVal_digitChar he, digVal_digitChar hf, digVal_digitChar hg, digVal_digitChar hh]
  rw [if_pos ⟨by omega, by omega, by omega, by omega⟩]
  have e1 : a * 1000 + b * 100 + c * 10 + d = 1000 * a + 100 * b + 10 * c + d := by ring
  have e2 : e * 10 + f = 10 * e + f := by ring
  have e3 : g * 10 + h = 10 * g + h := by ring
  rw [e1, e2, e3]

theorem parseDateCh_pads (y m d : Nat) (rest : List Char)
    (hy : y < 10000) (hm1 : 1 ≤ m) (hm2 : m ≤ 12) (hd1 : 1 ≤ d) (hd2 : d ≤ 31) :
    parseDateCh (padNat 4 y ++ '-' :: padNat 2 m ++ '-' :: padNat 2 d ++ rest) =
      some ((ratadie y m d : Int) - (epochRD : Int), rest) := by
  have hy' : y = 1000 * (y / 1000) + 100 * (y / 100 % 10) + 10 * (y / 10 % 10) + y % 10 := by
    omega
  have hm' : m = 10 * (m / 10) + m % 10 := by omega
  have hd' : d = 10 * (d / 10) + d % 10 := by omega
  conv_lhs =>
    rw [hy', padNat_four _ _ _ _ (by omega) (by omega) (by omega) (by omega),
        hm', padNat_two _ _ (by omega) (by omega),
        hd', padNat_two _ _ (by omega) (by omega)]
  simp only [List.cons_append, List.nil_append, parseDateCh]
  rw [if_neg (digitChar_ne_plus (by omega : y / 1000 < 10)),
      if_neg (digitChar_ne_dash (by omega : y / 1000 < 10))]
  rw [parseSimpleDate_digits _ _ _ _ _ _ _ _ rest (by omega) (by omega) (by omega) (by omega)
      (by omega) (by omega) (by omega) (by omega) (by omega) (by omega) (by omega) (by omega)]
  rw [show 1000 * (y / 1000) + 100 * (y / 100 % 10) + 10 * (y / 10 % 10) + y % 10 = y from by
        omega,
      show 10 * (m / 10) + m % 10 = m from by omega,
      show 10 * (d / 10) + d % 10 = d from by omega]

/-! ## Round trips between formatting and parsing -/

theorem parseDateCh_formatDay {day : Int} (rest : List Char)
    (h0 : 0 ≤ day + (epochRD : Int)) (h1 : day + (epochRD : Int) < (daysBeforeYear 10000 : Int)) :
    parseDateCh (formatDayChars day ++ rest) = some (day, rest) := by
  rw [formatDayChars_valid h0 h1]
  set n := (day + (epochRD : Int)).toNat with hn
  obtain ⟨hm1, hm2, hd1, hd2, hrat⟩ := civilOfRD_spec n
  have hyr : (civilOfRD n).1 < 10000 := by
    rw [civilOfRD_fst]
    exact yearOfRD_lt_10000 (by omega)
  have h31 : (civilOfRD n).2.2 ≤ 31 := le_trans hd2 (daysInMonthB_le _ _)
  have hp := parseDateCh_pads (civilOfRD n).1 (civilOfRD n).2.1 (civilOfRD n).2.2 rest
    hyr hm1 hm2 hd1 h31
  simp only [List.append_assoc, List.cons_append] at hp ⊢
  rw [hp, hrat]
  have : (n : Int) - (epochRD : Int) = day := by omega
  rw [this]

theorem parseTimeCh_digits (a b c d : Nat) (ha : a < 10) (hb : b < 10) (hc : c < 10)
    (hd : d < 10) (hab : 10 * a + b ≤ 24) (hcd : 10 * c + d ≤ 59) :
    parseTimeCh ('T' :: digitChar a :: digitChar b :: ':' :: digitChar c :: digitChar d ::
        ':' :: '0' :: '0' :: '.' :: '0' :: '0' :: '0' :: 'Z' :: []) =
      some ((10 * a + b) * 3600000 + (10 * c + d) * 60000) := by
  simp only [parseTimeCh]
  rw [if_pos ⟨trivial, trivial, trivial, trivial, trivial⟩]
  rw [isDig_digitChar ha, isDig_digitChar hb, isDig_digitChar hc, isDig_digitChar hd]
  rw [show isDig '0' = true from rfl]
  simp only [Bool.and_self, Bool.and_true, Bool.true_and, if_true]
  rw [digVal_digitChar ha, digVal_digitChar hb, digVal_digitChar hc, digVal_digitChar hd]
  rw [show digVal '0' = 0 from rfl]
  split
  next hcond =>
    simp only [Option.some.injEq]
    omega
  next hcond =>
    exact absurd ⟨by omega, by omega, by omega⟩ hcond

theorem parseTimeCh_pads (h mi : Nat) (hh : h < 24) (hmi : mi < 60) :
    parseTimeCh ('T' :: (padNat 2 h ++ ':' :: padNat 2 mi ++
        [':', '0', '0', '.', '0', '0', '0', 'Z'])) =
      some (h * 3600000 + mi * 60000) := by
  have hh' : h = 10 * (h / 10) + h % 10 := by omega
  have hmi' : mi = 10 * (mi / 10) + mi % 10 := by omega
  conv_lhs =>
    rw [hh', padNat_two _ _ (by omega) (by omega), hmi', padNat_two _ _ (by omega) (by omega)]
  simp only [List.cons_append, List.nil_append]
  rw [parseTimeCh_digits _ _ _ _ (by omega) (by omega) (by omega) (by omega) (by omega)
      (by omega)]
  simp only [Option.some.injEq]
  omega

theorem parseISOString_generated {day : Int} (h mi : Nat)
    (h0 : 0 ≤ day + (epochRD : Int)) (h1 : day + (epochRD : Int) < (daysBeforeYear 10000 : Int))
    (hh : h < 24) (hmi : mi < 60) :
    parseISOString (formatDay day ++ "T" ++ (⟨padNat 2 h⟩ : String) ++ ":" ++
        (⟨padNat 2 mi⟩ : String) ++ ":00.000Z") =
      some (day * 86400000 + ((h : Int) * 3600000 + (mi : Int) * 60000)) := by
  unfold parseISOString
  have hdata : (formatDay day ++ "T" ++ (⟨padNat 2 h⟩ : String) ++ ":" ++
      (⟨padNat 2 mi⟩ : String) ++ ":00.000Z").data =
      formatDayChars day ++ ('T' :: (padNat 2 h ++ ':' :: padNat 2 mi ++
        [':', '0', '0', '.', '0', '0', '0', 'Z'])) := by
    simp only [String.data_append, List.append_assoc]
    rfl
  rw [hdata, parseDateCh_formatDay _ h0 h1]
  dsimp only
  rw [parseTimeCh_pads h mi hh hmi]
  simp only [Option.map_some', Option.some.injEq]
  push_cast
  ring

theorem fromISODateUTC_formatDay {day : Int}
    (h0 : 0 ≤ day + (epochRD : Int)) (h1 : day + (epochRD : Int) < (daysBeforeYear 10000 : Int)) :
    fromISODateUTC (formatDay day) = some (day * 86400000) := by
  unfold fromISODateUTC parseISOString
  have hdata : (formatDay day ++ "T00:00:00.000Z").data =
      formatDayChars day ++
        ['T', '0', '0', ':', '0', '0', ':', '0', '0', '.', '0', '0', '0', 'Z'] := by
    simp only [String.data_append]
    rfl
  rw [hdata, parseDateCh_formatDay _ h0 h1]
  dsimp only
  rw [show parseTimeCh ['T', '0', '0', ':', '0', '0', ':', '0', '0', '.', '0', '0', '0', 'Z'] =
      some 0 from rfl]
  simp

theorem isoOfTV_midnight (day : Int) :
    isoOfTV (day * 86400000) =
      ⟨formatDayChars day ++
        ['T', '0', '0', ':', '0', '0', ':', '0', '0', '.', '0', '0', '0', 'Z']⟩ := by
  unfold isoOfTV
  dsimp only
  have e1 : day * 86400000 / 86400000 = day := Int.mul_ediv_cancel _ (by norm_num)
  have e2 : day * 86400000 % 86400000 = 0 := by simp [Int.mul_emod_left]
  rw [e1, e2]
  refine congrArg String.mk ?_
  simp only [List.append_assoc, List.cons_append]
  refine congrArg (fun l => formatDayChars day ++ l) ?_
  decide

/-! ## Lexicographic string comparison facts -/

theorem charListLtB_irrefl : ∀ l : List Char, charListLtB l l = false := by
  intro l
  induction l with
  | nil => rfl
  | cons c rest ih => simp [charListLtB, ih]

theorem charListLtB_asymm : ∀ a b : List Char,
    charListLtB a b = true → charListLtB b a = false := by
  intro a
  induction a with
  | nil =>
    intro b h
    cases b with
    | nil => simp [charListLtB] at h
    | cons c bs => simp [charListLtB]
  | cons c as ih =>
    intro b h
    cases b with
    | nil => simp [charListLtB] at h
    | cons d bs =>
      simp only [charListLtB] at h ⊢
      by_cases h1 : c.toNat < d.toNat
      · have h2 : ¬ d.toNat < c.toNat := by omega
        simp [h1, h2]
      · by_cases h2 : d.toNat < c.toNat
        · simp [h1, h2] at h
        · simp only [h1, h2, if_false] at h ⊢
          exact ih bs h

theorem charListLtB_append_same : ∀ (p a b : List Char),
    charListLtB (p ++ a) (p ++ b) = charListLtB a b := by
  intro p
  induction p with
  | nil => intro a b; rfl
  | cons c rest ih =>
    intro a b
    simp only [List.cons_append, charListLtB]
    rw [if_neg (by omega), if_neg (by omega)]
    exact ih a b

theorem charListLtB_append_of_lt : ∀ (a b : List Char), a.length = b.length →
    charListLtB a b = true → ∀ (t u : List Char), charListLtB (a ++ t) (b ++ u) = true := by
  intro a
  induction a with
  | nil =>
    intro b hlen h
    cases b with
    | nil => simp [charListLtB] at h
    | cons d bs => simp at hlen
  | cons c as ih =>
    intro b hlen h
    cases b with
    | nil => simp at hlen
    | cons d bs =>
      intro t u
      simp only [charListLtB, List.cons_append] at h ⊢
      by_cases h1 : c.toNat < d.toNat
      · simp [h1]
      · by_cases h2 : d.toNat < c.toNat
        · simp [h1, h2] at h
        · simp only [h1, h2, if_false] at h ⊢
          exact ih bs (by simpa using hlen) h t u

theorem padNat_length : ∀ (w n : Nat), (padNat w n).length = w := by
  intro w
  induction w with
  | zero => intro n; rfl
  | succ w ih => intro n; simp [padNat, ih]

theorem padNat_lt_of_lt : ∀ (w a b : Nat), a < b → b < 10 ^ w →
    charListLtB (padNat w a) (padNat w b) = true := by
  intro w
  induction w with
  | zero => intro a b hab hb; omega
  | succ w ih =>
    intro a b hab hb
    have hpow : 10 ^ (w + 1) = 10 ^ w * 10 := by ring
    have ha10 : a / 10 ^ w < 10 := Nat.div_lt_of_lt_mul (by omega)
    have hb10 : b / 10 ^ w < 10 := Nat.div_lt_of_lt_mul (by omega)
    have hqle : a / 10 ^ w ≤ b / 10 ^ w := Nat.div_le_div_right (by omega)
    simp only [padNat, charListLtB]
    rw [Nat.mod_eq_of_lt ha10, Nat.mod_eq_of_lt hb10]
    rcases Nat.lt_or_ge (a / 10 ^ w) (b / 10 ^ w) with hq | hq
    · rw [digitChar_toNat (by omega), digitChar_toNat (by omega)]
      rw [if_pos (by omega)]
    · have hqeq : a / 10 ^ w = b / 10 ^ w := by omega
      rw [digitChar_toNat (by omega), digitChar_toNat (by omega)]
      rw [if_neg (by omega), if_neg (by omega)]
      refine ih _ _ ?_ ?_
      · have h1 := Nat.div_add_mod a (10 ^ w)
        have h2 := Nat.div_add_mod b (10 ^ w)
        rw [← hqeq] at h2
        omega
      · exact Nat.mod_lt _ (by positivity)

theorem monthTable_mono :
    ∀ (leap : Bool) (a : Nat), a < 14 → ∀ (b : Nat), b < 14 → a ≤ b →
      daysBeforeMonthB leap a ≤ daysBeforeMonthB leap b := by decide

theorem monthTable_succ :
    ∀ (leap : Bool) (m : Nat), m < 13 → 1 ≤ m →
      daysBeforeMonthB leap (m + 1) = daysBeforeMonthB leap m + daysInMonthB leap m := by
  decide

/-- Within one year, a later day of year yields a lexicographically larger
    `MM-DD` suffix. -/
theorem month_suffix_lt (leap : Bool) (doy1 doy2 : Nat)
    (hb2 : doy2 < 366) (hb2' : leap = false → doy2 < 365) (hlt : doy1 < doy2) :
    charListLtB
      (padNat 2 (monthOfDOY leap doy1).1 ++ ('-' :: padNat 2 ((monthOfDOY leap doy1).2 + 1)))
      (padNat 2 (monthOfDOY leap doy2).1 ++ ('-' :: padNat 2 ((monthOfDOY leap doy2).2 + 1))) =
      true := by
  have hm1 := monthOf_complete leap doy1 (by omega) (by intro hf; have := hb2' hf; omega)
  have hm2 := monthOf_complete leap doy2 hb2 hb2'
  have h31a := daysInMonthB_le leap (monthOfDOY leap doy1).1
  have h31b := daysInMonthB_le leap (monthOfDOY leap doy2).1
  have hp2 : (10 : Nat) ^ 2 = 100 := by norm_num
  have hmle : (monthOfDOY leap doy1).1 ≤ (monthOfDOY leap doy2).1 := by
    by_contra hgt
    push_neg at hgt
    have hsucc := monthTable_succ leap (monthOfDOY leap doy2).1 (by omega) (by omega)
    have hmono := monthTable_mono leap ((monthOfDOY leap doy2).1 + 1) (by omega)
      (monthOfDOY leap doy1).1 (by omega) (by omega)
    omega
  rcases Nat.lt_or_ge (monthOfDOY leap doy1).1 (monthOfDOY leap doy2).1 with hmlt | hmge
  · refine charListLtB_append_of_lt _ _ ?_ ?_ _ _
    · rw [padNat_length, padNat_length]
    · exact padNat_lt_of_lt 2 _ _ hmlt (by omega)
  · have hmeq : (monthOfDOY leap doy1).1 = (monthOfDOY leap doy2).1 := by omega
    rw [hmeq, charListLtB_append_same]
    have hdomlt : (monthOfDOY leap doy1).2 < (monthOfDOY leap doy2).2 := by
      rw [hmeq] at hm1
      omega
    simp only [charListLtB]
    rw [if_neg (by omega), if_neg (by omega)]
    exact padNat_lt_of_lt 2 _ _ (by omega) (by omega)

/-- A strictly earlier epoch day formats to a lexicographically smaller
    date string (both days within four-digit years). -/
theorem formatDayChars_lt {d1 d2 : Int}
    (h0 : 0 ≤ d1 + (epochRD : Int)) (h1 : d2 + (epochRD : Int) < (daysBeforeYear 10000 : Int))
    (hlt : d1 < d2) :
    charListLtB (formatDayChars d1) (formatDayChars d2) = true := by
  have h0' : 0 ≤ d2 + (epochRD : Int) := by omega
  have h1' : d1 + (epochRD : Int) < (daysBeforeYear 10000 : Int) := by omega
  rw [formatDayChars_valid h0 h1', formatDayChars_valid h0' h1]
  set n1 := (d1 + (epochRD : Int)).toNat with hn1
  set n2 := (d2 + (epochRD : Int)).toNat with hn2
  have hnlt : n1 < n2 := by omega
  have hn2lt : n2 < daysBeforeYear 10000 := by omega
  have hy1 := yearOfRD_spec n1
  have hy2 := yearOfRD_spec n2
  have hy1lt : (yearOfRD n1).1 < 10000 := yearOfRD_lt_10000 (by omega)
  have hy2lt : (yearOfRD n2).1 < 10000 := yearOfRD_lt_10000 hn2lt
  have hcdef1 : civilOfRD n1 =
      ((yearOfRD n1).1, (monthOfDOY (isLeapY (yearOfRD n1).1) (yearOfRD n1).2).1,
       (monthOfDOY (isLeapY (yearOfRD n1).1) (yearOfRD n1).2).2 + 1) := rfl
  have hcdef2 : civilOfRD n2 =
      ((yearOfRD n2).1, (monthOfDOY (isLeapY (yearOfRD n2).1) (yearOfRD n2).2).1,
       (monthOfDOY (isLeapY (yearOfRD n2).1) (yearOfRD n2).2).2 + 1) := rfl
  rw [hcdef1, hcdef2]
  dsimp only
  simp only [List.append_assoc, List.cons_append]
  have hp4 : (10 : Nat) ^ 4 = 10000 := by norm_num
  have hyle : (yearOfRD n1).1 ≤ (yearOfRD n2).1 := by
    by_contra hlt'
    push_neg at hlt'
    have hstep := daysBeforeYear_succ (yearOfRD n2).1
    have hmono : daysBeforeYear ((yearOfRD n2).1 + 1) ≤ daysBeforeYear (yearOfRD n1).1 :=
      daysBeforeYear_mono (by omega)
    omega
  rcases Nat.lt_or_ge (yearOfRD n1).1 (yearOfRD n2).1 with hylt | hyge
  · refine charListLtB_append_of_lt _ _ ?_ ?_ _ _
    · rw [padNat_length, padNat_length]
    · exact padNat_lt_of_lt 4 _ _ hylt (by omega)
  · have hyeq : (yearOfRD n1).1 = (yearOfRD n2).1 := by omega
    rw [hyeq, charListLtB_append_same]
    have hdoylt : (yearOfRD n1).2 < (yearOfRD n2).2 := by
      have hbe1 : daysBeforeYear (yearOfRD n1).1 = daysBeforeYear (yearOfRD n2).1 := by
        rw [hyeq]
      omega
    simp only [charListLtB]
    rw [if_neg (by omega), if_neg (by omega)]
    exact month_suffix_lt (isLeapY (yearOfRD n2).1) _ _
      (by have := daysInYearN_le (yearOfRD n2).1; omega)
      (by intro hf
          have : daysInYearN (yearOfRD n2).1 = 365 := by
            unfold daysInYearN
            rw [hf]
            rfl
          omega)
      hdoylt

/-! ## Formatted dates under the store's string order -/

theorem formatDayChars_length {day : Int} (h0 : 0 ≤ day + (epochRD : Int))
    (h1 : day + (epochRD : Int) < (daysBeforeYear 10000 : Int)) :
    (formatDayChars day).length = 10 := by
  rw [formatDayChars_valid h0 h1]
  simp [List.length_append, padNat_length]

theorem ratadie_lt_10000 (y m d : Nat) (hy : y ≤ 9999) (hm1 : 1 ≤ m) (hm2 : m ≤ 12)
    (hd : d ≤ 31) : ratadie y m d < daysBeforeYear 10000 := by
  have hstep := daysBeforeYear_succ y
  have hmono : daysBeforeYear (y + 1) ≤ daysBeforeYear 10000 := daysBeforeYear_mono (by omega)
  have hdbm : daysBeforeMonthB (isLeapY y) m + 31 ≤ daysInYearN y := by
    have hb : ∀ (L : Bool) (mm : Nat), 1 ≤ mm → mm ≤ 12 →
        daysBeforeMonthB L mm + 31 ≤ (if L then 366 else 365) := by decide
    unfold daysInYearN
    exact hb (isLeapY y) m hm1 hm2
  unfold ratadie
  omega

theorem fmt_append_lt {d1 d2 : Int} (h0 : 0 ≤ d1 + (epochRD : Int))
    (h1 : d2 + (epochRD : Int) < (daysBeforeYear 10000 : Int)) (hlt : d1 < d2)
    (t u : List Char) :
    charListLtB (formatDayChars d1 ++ t) (formatDayChars d2 ++ u) = true :=
  charListLtB_append_of_lt _ _
    (by rw [formatDayChars_length h0 (by omega), formatDayChars_length (by omega) h1])
    (formatDayChars_lt h0 h1 hlt) t u

theorem fmt_append_not_lt_same {d1 d2 : Int} (h0 : 0 ≤ d2 + (epochRD : Int))
    (h1 : d1 + (epochRD : Int) < (daysBeforeYear 10000 : Int)) (hle : d2 ≤ d1)
    (t : List Char) :
    charListLtB (formatDayChars d1 ++ t) (formatDayChars d2 ++ t) = false := by
  rcases eq_or_lt_of_le hle with heq | hlt
  · rw [heq, charListLtB_irrefl]
  · exact charListLtB_asymm _ _ (fmt_append_lt h0 h1 hlt t t)

theorem timeSuffix_not_lt : ∀ h : Nat, h < 24 → ∀ mi : Nat, mi < 60 →
    charListLtB ('T' :: (padNat 2 h ++ ':' :: padNat 2 mi ++
        [':', '0', '0', '.', '0', '0', '0', 'Z']))
      ['T', '0', '0', ':', '0', '0', ':', '0', '0', '.', '0', '0', '0', 'Z'] = false := by
  decide

theorem recv_not_lt_lower {df day : Int} {h mi : Nat} (h0 : 0 ≤ df + (epochRD : Int))
    (h1 : day + (epochRD : Int) < (daysBeforeYear 10000 : Int)) (hle : df ≤ day)
    (hh : h < 24) (hmi : mi < 60) :
    charListLtB
      (formatDayChars day ++ ('T' :: (padNat 2 h ++ ':' :: padNat 2 mi ++
        [':', '0', '0', '.', '0', '0', '0', 'Z'])))
      (formatDayChars df ++ ['T', '0', '0', ':', '0', '0', ':', '0', '0', '.', '0', '0', '0', 'Z'])
      = false := by
  rcases eq_or_lt_of_le hle with heq | hlt
  · rw [← heq, charListLtB_append_same]
    exact timeSuffix_not_lt h hh mi hmi
  · exact charListLtB_asymm _ _ (fmt_append_lt h0 h1 hlt _ _)

theorem receivedAt_data (ds : String) (h mi : Nat) :
    (ds ++ "T" ++ (⟨padNat 2 h⟩ : String) ++ ":" ++ (⟨padNat 2 mi⟩ : String) ++
        ":00.000Z").data =
      ds.data ++ ('T' :: (padNat 2 h ++ ':' :: padNat 2 mi ++
        [':', '0', '0', '.', '0', '0', '0', 'Z'])) := by
  simp only [String.data_append, List.append_assoc]
  rfl

theorem eachDayInclusive_eq {fromS toS : String} {df dt : Int}
    (hf : fromISODateUTC fromS = some (df * 86400000))
    (ht : fromISODateUTC toS = some (dt * 86400000)) :
    eachDayInclusive fromS toS = (dayRange df dt).map formatDay := by
  unfold eachDayInclusive
  rw [hf, ht]
  dsimp only
  rw [Int.mul_ediv_cancel _ (by norm_num : (86400000 : Int) ≠ 0),
      Int.mul_ediv_cancel _ (by norm_num : (86400000 : Int) ≠ 0)]

/-! ## What a validated calendar day denotes -/

theorem isDig_bounds {c : Char} (h : isDig c = true) : 48 ≤ c.toNat ∧ c.toNat ≤ 57 := by
  simpa [isDig, Bool.and_eq_true, decide_eq_true_eq] using h

theorem digVal_lt_10 {c : Char} (h : isDig c = true) : digVal c < 10 := by
  have := isDig_bounds h
  unfold digVal
  omega

theorem isDig_ne_plus {c : Char} (h : isDig c = true) : ¬c = '+' := by
  intro hc
  rw [hc] at h
  exact absurd h (by decide)

theorem isDig_ne_dash {c : Char} (h : isDig c = true) : ¬c = '-' := by
  intro hc
  rw [hc] at h
  exact absurd h (by decide)

/-- A string accepted by `isValidISODate` denotes a four-digit-year UTC day:
    it parses to that day's midnight and formats back to itself. -/
theorem isValid_true_elim {s : String} (h : isValidISODate s = some true) :
    ∃ day : Int, fromISODateUTC s = some (day * 86400000) ∧ formatDay day = s ∧
      0 ≤ day + (epochRD : Int) ∧ day + (epochRD : Int) < (daysBeforeYear 10000 : Int) := by
  unfold isValidISODate at h
  by_cases hm : matchesDatePattern s
  case neg =>
    rw [if_neg hm] at h
    exact absurd (Option.some.inj h) (by decide)
  rw [if_pos hm] at h
  unfold matchesDatePattern at hm
  split at hm
  case _ a b c d e f g h2 heq =>
    simp only [Bool.and_eq_true] at hm
    obtain ⟨⟨⟨⟨⟨⟨⟨hma, hmb⟩, hmc⟩, hmd⟩, hme⟩, hmf⟩, hmg⟩, hmh⟩ := hm
    have hdata : (s ++ "T00:00:00.000Z").data =
        a :: b :: c :: d :: '-' :: e :: f :: '-' :: g :: h2 ::
          ['T', '0', '0', ':', '0', '0', ':', '0', '0', '.', '0', '0', '0', 'Z'] := by
      simp only [String.data_append, heq]
      rfl
    have hday : ∀ X : Option Int, fromISODateUTC s = X →
        (X = some (((ratadie (digVal a * 1000 + digVal b * 100 + digVal c * 10 + digVal d)
            (digVal e * 10 + digVal f) (digVal g * 10 + digVal h2) : Int) - (epochRD : Int))
              * 86400000) ∧
          1 ≤ digVal e * 10 + digVal f ∧ digVal e * 10 + digVal f ≤ 12 ∧
          1 ≤ digVal g * 10 + digVal h2 ∧ digVal g * 10 + digVal h2 ≤ 31) ∨ X = none := by
      intro X hX
      unfold fromISODateUTC parseISOString at hX
      rw [hdata] at hX
      simp only [parseDateCh] at hX
      rw [if_neg (isDig_ne_plus hma), if_neg (isDig_ne_dash hma)] at hX
      simp only [parseSimpleDate] at hX
      rw [hma, hmb, hmc, hmd, hme, hmf, hmg, hmh] at hX
      simp only [Bool.and_self, if_true] at hX
      by_cases hbnd : 1 ≤ digVal e * 10 + digVal f ∧ digVal e * 10 + digVal f ≤ 12 ∧
          1 ≤ digVal g * 10 + digVal h2 ∧ digVal g * 10 + digVal h2 ≤ 31
      · rw [if_pos hbnd] at hX
        dsimp only at hX
        rw [show parseTimeCh ['T', '0', '0', ':', '0', '0', ':', '0', '0', '.', '0', '0',
            '0', 'Z'] = some 0 from rfl] at hX
        simp only [Option.map_some', Nat.cast_zero, add_zero] at hX
        exact Or.inl ⟨hX.symm, hbnd.1, hbnd.2.1, hbnd.2.2.1, hbnd.2.2.2⟩
      · rw [if_neg hbnd] at hX
        exact Or.inr hX.symm
    rcases hday (fromISODateUTC s) rfl with ⟨hsome, hb1, hb2, hb3, hb4⟩ | hnone
    · rw [hsome] at h
      unfold toISODateUTC at h
      dsimp only at h
      rw [Int.mul_ediv_cancel _ (by norm_num : (86400000 : Int) ≠ 0)] at h
      have hrt : formatDay (((ratadie (digVal a * 1000 + digVal b * 100 + digVal c * 10 +
          digVal d) (digVal e * 10 + digVal f) (digVal g * 10 + digVal h2) : Int) -
            (epochRD : Int))) = s := of_decide_eq_true (Option.some.inj h)
      have hlt := ratadie_lt_10000
        (digVal a * 1000 + digVal b * 100 + digVal c * 10 + digVal d)
        (digVal e * 10 + digVal f) (digVal g * 10 + digVal h2)
        (by have := digVal_lt_10 hma; have := digVal_lt_10 hmb; have := digVal_lt_10 hmc;
            have := digVal_lt_10 hmd; omega)
        hb1 hb2 hb4
      exact ⟨_, hsome, hrt, by omega, by omega⟩
    · rw [hnone] at h
      exact absurd h (by simp [toISODateUTC])
  case _ => exact absurd hm (by decide)

/-! ## Zero-fill, generated-event and window support lemmas -/

/-- Upserting pairwise-fresh keys into a map that contains none of them is an
    append of the new entries in order. -/
theorem foldl_upsertA_fresh {β : Type} (f : String → β) :
    ∀ (l : List String) (acc : List (String × β)), l.Nodup →
      (∀ d ∈ l, d ∉ keysOf acc) →
      l.foldl (fun zf d => upsertA zf d (f d)) acc = acc ++ l.map (fun d => (d, f d)) := by
  intro l
  induction l with
  | nil => intro acc _ _; simp
  | cons d rest ih =>
    intro acc hnd hfresh
    simp only [List.foldl_cons, List.map_cons]
    rw [upsertA_not_mem acc d (f d) (hfresh d (List.mem_cons_self d rest))]
    rw [ih (acc ++ [(d, f d)]) (List.Nodup.of_cons hnd) ?_]
    · simp [List.append_assoc]
    · intro d' hd'
      simp only [keysOf, List.map_append, List.mem_append, List.map_cons, List.map_nil,
        List.mem_singleton, not_or]
      refine ⟨hfresh d' (List.mem_cons_of_mem d hd'), ?_⟩
      intro hcontra
      rw [List.nodup_cons] at hnd
      exact hnd.1 (hcontra ▸ hd')

/-- `createZeroFilledCounts` over duplicate-free dates is literally the list of
    dates paired with their looked-up-or-zero counts, in range order. -/
theorem createZeroFilledCounts_eq (dateRange : List String)
    (actual : List (String × Nat)) (hnd : dateRange.Nodup) :
    createZeroFilledCounts dateRange actual =
      dateRange.map (fun d => (d, (lookupA actual d).getD 0)) := by
  unfold createZeroFilledCounts
  rw [foldl_upsertA_fresh _ dateRange [] hnd (by intro d _; simp [keysOf])]
  simp

theorem eachDayInclusive_pairwise {fromS toS : String} {df dt : Int}
    (hf : fromISODateUTC fromS = some (df * 86400000))
    (ht : fromISODateUTC toS = some (dt * 86400000))
    (h0 : 0 ≤ df + (epochRD : Int))
    (h1 : dt + (epochRD : Int) < (daysBeforeYear 10000 : Int)) :
    (eachDayInclusive fromS toS).Pairwise (fun a b => strLtB a b = true) := by
  rw [eachDayInclusive_eq hf ht]
  rw [List.pairwise_map]
  refine List.Pairwise.imp_of_mem ?_ (dayRange_pairwise df dt)
  intro a b ha hb hlt
  rw [mem_dayRange] at ha hb
  show charListLtB (formatDayChars a) (formatDayChars b) = true
  exact formatDayChars_lt (by omega) (by omega) hlt

theorem eachDayInclusive_nodup {fromS toS : String} {df dt : Int}
    (hf : fromISODateUTC fromS = some (df * 86400000))
    (ht : fromISODateUTC toS = some (dt * 86400000))
    (h0 : 0 ≤ df + (epochRD : Int))
    (h1 : dt + (epochRD : Int) < (daysBeforeYear 10000 : Int)) :
    (eachDayInclusive fromS toS).Nodup := by
  have hp := eachDayInclusive_pairwise hf ht h0 h1
  refine hp.imp ?_
  intro a b hab
  intro heq
  rw [heq] at hab
  have := charListLtB_irrefl b.data
  rw [strLtB] at hab
  rw [this] at hab
  exact Bool.false_ne_true hab

/-- Each invitation generated for a calendar day carries that day's date with
    an in-day `HH:MM:00.000Z` time. -/
theorem mem_generate {inv : MockInvitation} {t a date : String} {count : Nat}
    (h : inv ∈ generateInvitationsForDay t a date count) :
    ∃ hr mi : Nat, hr < 24 ∧ mi < 60 ∧
      inv.receivedAt = date ++ "T" ++ (⟨padNat 2 hr⟩ : String) ++ ":" ++
        (⟨padNat 2 mi⟩ : String) ++ ":00.000Z" := by
  unfold generateInvitationsForDay at h
  simp only [List.mem_map, List.mem_range] at h
  obtain ⟨i, _, heq⟩ := h
  refine ⟨simpleHash ("hour-" ++ (t ++ "-" ++ a ++ "-" ++ date ++ "-" ++ natToDec i)) % 24,
    simpleHash ("minute-" ++ (t ++ "-" ++ a ++ "-" ++ date ++ "-" ++ natToDec i)) % 60,
    Nat.mod_lt _ (by decide), Nat.mod_lt _ (by decide), ?_⟩
  rw [← heq]

theorem mem_mockFetch {inv : MockInvitation} {t a fromS toS : String}
    (h : inv ∈ mockFetchInvitations t a fromS toS) :
    ∃ d ∈ eachDayInclusive fromS toS,
      inv ∈ generateInvitationsForDay t a d (getDailyInvitationCount t a d) := by
  unfold mockFetchInvitations at h
  rw [mem_stableSortBy] at h
  simpa only [List.mem_flatMap] using h

theorem previousPeriodBounds_eq {fromS : String} {df : Int}
    (hf : fromISODateUTC fromS = some (df * 86400000)) :
    previousPeriodBounds fromS = (some (formatDay (df - 7)), some (formatDay (df - 1))) := by
  unfold previousPeriodBounds addDaysUTC toISODateUTC
  rw [hf]
  dsimp only
  have e7 : (df * 86400000 + -7 * 86400000) / 86400000 = df - 7 := by
    rw [show df * 86400000 + -7 * 86400000 = (df - 7) * 86400000 from by ring]
    exact Int.mul_ediv_cancel _ (by norm_num)
  have e1 : (df * 86400000 + -1 * 86400000) / 86400000 = df - 1 := by
    rw [show df * 86400000 + -1 * 86400000 = (df - 1) * 86400000 from by ring]
    exact Int.mul_ediv_cancel _ (by norm_num)
  rw [e7, e1]

/-! ## The ingestion pipeline's store footprint -/

/-- The keyed batch of raw-invitation writes one pipeline run issues. -/
def rawPairs (tenantId accountId fromS toS : String) : List (String × RawInvitation) :=
  (mockFetchInvitations tenantId accountId fromS toS).map fun inv =>
    (inv.externalId, (⟨tenantId, accountId, inv.externalId, inv.receivedAt⟩ : RawInvitation))

theorem pipeline_invitations (st : Store) (now tenantId accountId fromS toS : String) :
    (runIngestionPipeline st now tenantId accountId fromS toS).store.invitations =
      writeAll st.invitations (rawPairs tenantId accountId fromS toS) := by
  unfold runIngestionPipeline
  dsimp only
  split
  · simp only [writeRawInvitations, rawPairs, List.map_map]
    rfl
  · simp only [writeDailyRollups, writeRawInvitations, rawPairs, List.map_map]
    rfl

theorem query_invitations_only (st st' : Store) (h : st.invitations = st'.invitations)
    (tenantId accountId fromS toS : String) :
    queryInvitationsByDateRange st tenantId accountId fromS toS =
      queryInvitationsByDateRange st' tenantId accountId fromS toS := by
  unfold queryInvitationsByDateRange
  rw [h]

theorem pipeline_counts_eq (st st' : Store) (now now' tenantId accountId fromS toS : String)
    (h : writeAll st.invitations (rawPairs tenantId accountId fromS toS) =
      writeAll st'.invitations (rawPairs tenantId accountId fromS toS)) :
    (runIngestionPipeline st now tenantId accountId fromS toS).counts =
      (runIngestionPipeline st' now' tenantId accountId fromS toS).counts := by
  unfold runIngestionPipeline
  dsimp only
  have hq : queryInvitationsByDateRange
      (writeRawInvitations st ((mockFetchInvitations tenantId accountId fromS toS).map fun inv =>
        (⟨tenantId, accountId, inv.externalId, inv.receivedAt⟩ : RawInvitation)))
      tenantId accountId fromS toS =
    queryInvitationsByDateRange
      (writeRawInvitations st' ((mockFetchInvitations tenantId accountId fromS toS).map fun inv =>
        (⟨tenantId, accountId, inv.externalId, inv.receivedAt⟩ : RawInvitation)))
      tenantId accountId fromS toS := by
    refine query_invitations_only _ _ ?_ _ _ _ _
    show writeAll st.invitations _ = writeAll st'.invitations _
    simp only [List.map_map]
    exact h
  rw [hq]
  split
  · rfl
  · rfl

/-! ## The claims -/

/-- Claim C1: running the full ingestion pipeline twice with the same tenant,
    account and date range leaves the stored invitation set of the first run
    unchanged (the second batch of externalId-keyed upserts is absorbed) and
    reproduces the same per-day rollup counts. -/
theorem claim_C1 (st : Store) (now now' tenantId accountId fromS toS : String)
    (hnd : NodupKeys st.invitations) :
    (runIngestionPipeline (runIngestionPipeline st now tenantId accountId fromS toS).store
        now' tenantId accountId fromS toS).store.invitations =
      (runIngestionPipeline st now tenantId accountId fromS toS).store.invitations ∧
    (runIngestionPipeline (runIngestionPipeline st now tenantId accountId fromS toS).store
        now' tenantId accountId fromS toS).counts =
      (runIngestionPipeline st now tenantId accountId fromS toS).counts := by
  have hww := writeAll_writeAll_self (rawPairs tenantId accountId fromS toS)
    st.invitations hnd
  constructor
  · rw [pipeline_invitations, pipeline_invitations]
    exact hww
  · refine pipeline_counts_eq _ _ _ _ _ _ _ _ ?_
    rw [pipeline_invitations]
    exact hww

theorem claim_C1_witness :
    (runIngestionPipeline (runIngestionPipeline ⟨[], []⟩ "T0" "t1" "a1" "2025-09-01"
        "2025-09-02").store "T1" "t1" "a1" "2025-09-01" "2025-09-02").store.invitations =
      (runIngestionPipeline ⟨[], []⟩ "T0" "t1" "a1" "2025-09-01"
        "2025-09-02").store.invitations ∧
    (runIngestionPipeline (runIngestionPipeline ⟨[], []⟩ "T0" "t1" "a1" "2025-09-01"
        "2025-09-02").store "T1" "t1" "a1" "2025-09-01" "2025-09-02").counts =
      (runIngestionPipeline ⟨[], []⟩ "T0" "t1" "a1" "2025-09-01" "2025-09-02").counts :=
  claim_C1 ⟨[], []⟩ "T0" "T1" "t1" "a1" "2025-09-01" "2025-09-02"
    (by simp [NodupKeys, keysOf])

/-- Claim C2: two calls of the mock generator with identical inputs return
    identical invitation sequences: same length, and element-wise equal
    externalId, senderId and receivedAt. -/
theorem claim_C2 (t1 a1 f1 u1 t2 a2 f2 u2 : String)
    (ht : t1 = t2) (ha : a1 = a2) (hf : f1 = f2) (hu : u1 = u2) :
    (mockFetchInvitations t1 a1 f1 u1).length = (mockFetchInvitations t2 a2 f2 u2).length ∧
    ∀ i : Nat,
      ((mockFetchInvitations t1 a1 f1 u1)[i]?).map MockInvitation.externalId =
        ((mockFetchInvitations t2 a2 f2 u2)[i]?).map MockInvitation.externalId ∧
      ((mockFetchInvitations t1 a1 f1 u1)[i]?).map MockInvitation.senderId =
        ((mockFetchInvitations t2 a2 f2 u2)[i]?).map MockInvitation.senderId ∧
      ((mockFetchInvitations t1 a1 f1 u1)[i]?).map MockInvitation.receivedAt =
        ((mockFetchInvitations t2 a2 f2 u2)[i]?).map MockInvitation.receivedAt := by
  subst ht ha hf hu
  exact ⟨rfl, fun _ => ⟨rfl, rfl, rfl⟩⟩

theorem claim_C2_witness :
    (mockFetchInvitations "t1" "a1" "2025-09-01" "2025-09-02").length =
      (mockFetchInvitations "t1" "a1" "2025-09-01" "2025-09-02").length ∧
    ∀ i : Nat,
      ((mockFetchInvitations "t1" "a1" "2025-09-01" "2025-09-02")[i]?).map
          MockInvitation.externalId =
        ((mockFetchInvitations "t1" "a1" "2025-09-01" "2025-09-02")[i]?).map
          MockInvitation.externalId ∧
      ((mockFetchInvitations "t1" "a1" "2025-09-01" "2025-09-02")[i]?).map
          MockInvitation.senderId =
        ((mockFetchInvitations "t1" "a1" "2025-09-01" "2025-09-02")[i]?).map
          MockInvitation.senderId ∧
      ((mockFetchInvitations "t1" "a1" "2025-09-01" "2025-09-02")[i]?).map
          MockInvitation.receivedAt =
        ((mockFetchInvitations "t1" "a1" "2025-09-01" "2025-09-02")[i]?).map
          MockInvitation.receivedAt :=
  claim_C2 "t1" "a1" "2025-09-01" "2025-09-02" "t1" "a1" "2025-09-01" "2025-09-02"
    rfl rfl rfl rfl

/-- Claim C3: the validator does return `false` on a pattern-matching string
    that normalizes (2025-02-30), but on day 32 the parse yields an Invalid
    Date whose `toISOString` throws, so `isValidISODate` throws (`none`)
    instead of returning `false` as specified. -/
theorem claim_C3 :
    isValidISODate "2025-02-30" = some false ∧
    matchesDatePattern "2025-09-32" = true ∧
    isValidISODate "2025-09-32" = none := by
  exact ⟨by decide, by decide, by decide⟩

/-- Claim C9: the per-day event count is the absolute value of the seeded
    32-bit hash reduced mod 6, an integer in `[0, 5]`. -/
theorem claim_C9 (tenantId accountId date : String) :
    getDailyInvitationCount tenantId accountId date < 6 ∧
    getDailyInvitationCount tenantId accountId date =
      (hashInt32 (tenantId ++ "-" ++ accountId ++ "-" ++ date)).natAbs % 6 :=
  ⟨Nat.mod_lt _ (by decide), rfl⟩

/-- Claim C7 (amended): a request `validateQueryParams` rejects with a
    validation error gets the 400 response carrying that error, with the
    store untouched and no store operations performed.  (A date that matches
    the pattern but throws inside validation instead surfaces as a 500; see
    the counterexample.) -/
theorem claim_C7 (st : Store) (now : String) (q : QueryObj) (e : String)
    (h : validateQueryParams q = .invalid e) :
    getDailyInvitationMetrics st now q = ⟨400, [], some e, st, []⟩ := by
  unfold getDailyInvitationMetrics
  rw [h]

theorem claim_C7_witness :
    getDailyInvitationMetrics ⟨[], []⟩ "T0" ⟨none, none, none, none⟩ =
      ⟨400, [], some "tenantId is required and must be a string", ⟨[], []⟩, []⟩ :=
  claim_C7 ⟨[], []⟩ "T0" ⟨none, none, none, none⟩
    "tenantId is required and must be a string" rfl

theorem claim_C7_counterexample :
    validateQueryParams ⟨some (.str "t1"), some (.str "a1"), some (.str "2025-09-32"),
        some (.str "2025-09-30")⟩ = .thrown ∧
    (getDailyInvitationMetrics ⟨[], []⟩ "T0" ⟨some (.str "t1"), some (.str "a1"),
        some (.str "2025-09-32"), some (.str "2025-09-30")⟩).status = 500 ∧
    (getDailyInvitationMetrics ⟨[], []⟩ "T0" ⟨some (.str "t1"), some (.str "a1"),
        some (.str "2025-09-32"), some (.str "2025-09-30")⟩).ops = [] := by
  exact ⟨by decide, by decide, by decide⟩

/-- Claim C6: the previous-period comparison window is exactly the seven UTC
    calendar days `from - 7 .. from - 1`, fixed at seven days by construction,
    ending strictly before `from`, and its query is reduced to the single
    scalar sum of the returned per-date counts; for `from = 2025-09-08` the
    bounds are `2025-09-01` and `2025-09-07`. -/
theorem claim_C6 (st : Store) (tenantId accountId fromS : String) (df : Int)
    (hf : fromISODateUTC fromS = some (df * 86400000))
    (h0 : 0 ≤ df - 7 + (epochRD : Int))
    (h1 : df + (epochRD : Int) < (daysBeforeYear 10000 : Int)) :
    previousPeriodBounds fromS = (some (formatDay (df - 7)), some (formatDay (df - 1))) ∧
    eachDayInclusive (formatDay (df - 7)) (formatDay (df - 1)) =
      (dayRange (df - 7) (df - 1)).map formatDay ∧
    (eachDayInclusive (formatDay (df - 7)) (formatDay (df - 1))).length = 7 ∧
    strLtB (formatDay (df - 1)) (formatDay df) = true ∧
    getTotalInvitationsInPeriod st tenantId accountId (formatDay (df - 7))
        (formatDay (df - 1)) =
      (queryInvitationsByDateRange st tenantId accountId (formatDay (df - 7))
        (formatDay (df - 1))).map sumCounts ∧
    previousPeriodBounds "2025-09-08" = (some "2025-09-01", some "2025-09-07") := by
  have hp7 : fromISODateUTC (formatDay (df - 7)) = some ((df - 7) * 86400000) :=
    fromISODateUTC_formatDay (by omega) (by omega)
  have hp1 : fromISODateUTC (formatDay (df - 1)) = some ((df - 1) * 86400000) :=
    fromISODateUTC_formatDay (by omega) (by omega)
  have heach := eachDayInclusive_eq hp7 hp1
  refine ⟨previousPeriodBounds_eq hf, heach, ?_, ?_, rfl, by decide⟩
  · rw [heach, List.length_map, dayRange_length]
    omega
  · show charListLtB (formatDayChars (df - 1)) (formatDayChars df) = true
    exact formatDayChars_lt (by omega) h1 (by omega)

theorem claim_C6_witness :
    previousPeriodBounds "2025-09-08" =
      (some (formatDay (20339 - 7)), some (formatDay (20339 - 1))) ∧
    eachDayInclusive (formatDay (20339 - 7)) (formatDay (20339 - 1)) =
      (dayRange (20339 - 7) (20339 - 1)).map formatDay ∧
    (eachDayInclusive (formatDay (20339 - 7)) (formatDay (20339 - 1))).length = 7 ∧
    strLtB (formatDay (20339 - 1)) (formatDay (20339 : Int)) = true ∧
    getTotalInvitationsInPeriod ⟨[], []⟩ "t1" "a1" (formatDay (20339 - 7))
        (formatDay (20339 - 1)) =
      (queryInvitationsByDateRange ⟨[], []⟩ "t1" "a1" (formatDay (20339 - 7))
        (formatDay (20339 - 1))).map sumCounts ∧
    previousPeriodBounds "2025-09-08" = (some "2025-09-01", some "2025-09-07") :=
  claim_C6 ⟨[], []⟩ "t1" "a1" "2025-09-08" 20339 (by decide) (by decide) (by decide)

/-- Claim C4: for a validated range with `from <= to`, the zero-filled
    aggregation has exactly one entry per calendar day of the inclusive range
    in ascending date order, its length is the inclusive day count, and each
    day's value is the retrieved count or 0 when the day is absent. -/
theorem claim_C4 (fromS toS : String) (actual : List (String × Nat))
    (hfv : isValidISODate fromS = some true) (htv : isValidISODate toS = some true)
    (hle : optTVgt (fromISODateUTC fromS) (fromISODateUTC toS) = false) :
    createZeroFilledCounts (eachDayInclusive fromS toS) actual =
      (eachDayInclusive fromS toS).map (fun d => (d, (lookupA actual d).getD 0)) ∧
    (createZeroFilledCounts (eachDayInclusive fromS toS) actual).length =
      ((fromISODateUTC toS).getD 0 / 86400000 + 1 -
        (fromISODateUTC fromS).getD 0 / 86400000).toNat ∧
    fromS ∈ eachDayInclusive fromS toS ∧ toS ∈ eachDayInclusive fromS toS ∧
    ((createZeroFilledCounts (eachDayInclusive fromS toS) actual).map Prod.fst).Pairwise
      (fun a b => strLtB a b = true) := by
  obtain ⟨df, hpf, hrf, hf0, hf1⟩ := isValid_true_elim hfv
  obtain ⟨dt, hpt, hrt, ht0, ht1⟩ := isValid_true_elim htv
  have hdfdt : df ≤ dt := by
    rw [hpf, hpt] at hle
    unfold optTVgt at hle
    simp only [decide_eq_false_iff_not, not_lt] at hle
    omega
  have hmain := createZeroFilledCounts_eq (eachDayInclusive fromS toS) actual
    (eachDayInclusive_nodup hpf hpt hf0 ht1)
  refine ⟨hmain, ?_, ?_, ?_, ?_⟩
  · rw [hmain, List.length_map, eachDayInclusive_eq hpf hpt, List.length_map,
      dayRange_length, hpf, hpt]
    simp only [Option.getD_some]
    rw [Int.mul_ediv_cancel _ (by norm_num : (86400000 : Int) ≠ 0),
        Int.mul_ediv_cancel _ (by norm_num : (86400000 : Int) ≠ 0)]
  · rw [eachDayInclusive_eq hpf hpt]
    exact List.mem_map.2 ⟨df, (mem_dayRange df dt df).2 ⟨le_refl df, hdfdt⟩, hrf⟩
  · rw [eachDayInclusive_eq hpf hpt]
    exact List.mem_map.2 ⟨dt, (mem_dayRange df dt dt).2 ⟨hdfdt, le_refl dt⟩, hrt⟩
  · rw [hmain, List.map_map]
    have hid : (Prod.fst ∘ fun d => (d, (lookupA actual d).getD 0)) = id := rfl
    rw [hid, List.map_id]
    exact eachDayInclusive_pairwise hpf hpt hf0 ht1

theorem claim_C4_witness :
    createZeroFilledCounts (eachDayInclusive "2025-09-01" "2025-09-03") [("2025-09-02", 5)] =
      (eachDayInclusive "2025-09-01" "2025-09-03").map
        (fun d => (d, (lookupA [("2025-09-02", 5)] d).getD 0)) ∧
    (createZeroFilledCounts (eachDayInclusive "2025-09-01" "2025-09-03")
        [("2025-09-02", 5)]).length =
      ((fromISODateUTC "2025-09-03").getD 0 / 86400000 + 1 -
        (fromISODateUTC "2025-09-01").getD 0 / 86400000).toNat ∧
    "2025-09-01" ∈ eachDayInclusive "2025-09-01" "2025-09-03" ∧
    "2025-09-03" ∈ eachDayInclusive "2025-09-01" "2025-09-03" ∧
    ((createZeroFilledCounts (eachDayInclusive "2025-09-01" "2025-09-03")
        [("2025-09-02", 5)]).map Prod.fst).Pairwise (fun a b => strLtB a b = true) :=
  claim_C4 "2025-09-01" "2025-09-03" [("2025-09-02", 5)] (by decide) (by decide) (by decide)

/-- Claim C5 (amended): as long as the day after the requested end day still
    has a four-digit year, the store query bounds are the inclusive UTC
    midnight of the start day and the exclusive UTC midnight of the day after
    the end day: an event at exactly the end day's midnight passes the filter,
    one at the following midnight does not.  (For `to = 9999-12-31` the upper
    bound is printed in expanded-year form and the comparison breaks; see the
    counterexample.) -/
theorem claim_C5 (st : Store) (tenantId accountId fromS toS : String) (df dt : Int)
    (inv1 inv2 : RawInvitation)
    (hpf : fromISODateUTC fromS = some (df * 86400000))
    (hpt : fromISODateUTC toS = some (dt * 86400000))
    (h0 : 0 ≤ df + (epochRD : Int)) (hle : df ≤ dt)
    (h1 : dt + 1 + (epochRD : Int) < (daysBeforeYear 10000 : Int))
    (h1t : inv1.tenantId = tenantId) (h1a : inv1.accountId = accountId)
    (h1r : inv1.receivedAt = formatDay dt ++ "T00:00:00.000Z")
    (h2r : inv2.receivedAt = formatDay (dt + 1) ++ "T00:00:00.000Z") :
    queryInvitationsByDateRange st tenantId accountId fromS toS =
      groupByDateAux [] (stableSortBy (fun x y => strLeB x.receivedAt y.receivedAt)
        ((st.invitations.map Prod.snd).filter
          (invitationMatches tenantId accountId (isoOfTV (df * 86400000))
            (isoOfTV ((dt + 1) * 86400000))))) ∧
    invitationMatches tenantId accountId (isoOfTV (df * 86400000))
      (isoOfTV ((dt + 1) * 86400000)) inv1 = true ∧
    invitationMatches tenantId accountId (isoOfTV (df * 86400000))
      (isoOfTV ((dt + 1) * 86400000)) inv2 = false := by
  have hd1 : (formatDay dt ++ "T00:00:00.000Z").data =
      formatDayChars dt ++ ['T', '0', '0', ':', '0', '0', ':', '0', '0', '.', '0', '0',
        '0', 'Z'] := by
    simp only [String.data_append]
    rfl
  have hd2 : (formatDay (dt + 1) ++ "T00:00:00.000Z").data =
      formatDayChars (dt + 1) ++ ['T', '0', '0', ':', '0', '0', ':', '0', '0', '.', '0',
        '0', '0', 'Z'] := by
    simp only [String.data_append]
    rfl
  refine ⟨?_, ?_, ?_⟩
  · unfold queryInvitationsByDateRange
    rw [hpf, hpt]
    have ha : addDaysUTC (some (dt * 86400000)) 1 = some ((dt + 1) * 86400000) := by
      show some (dt * 86400000 + 1 * 86400000) = _
      congr 1
      ring
    rw [ha]
    have hs1 : startOfDayUTC (some (df * 86400000)) = some (df * 86400000) := by
      show some (df * 86400000 / 86400000 * 86400000) = _
      rw [Int.mul_ediv_cancel _ (by norm_num : (86400000 : Int) ≠ 0)]
    have hs2 : startOfDayUTC (some ((dt + 1) * 86400000)) = some ((dt + 1) * 86400000) := by
      show some ((dt + 1) * 86400000 / 86400000 * 86400000) = _
      rw [Int.mul_ediv_cancel _ (by norm_num : (86400000 : Int) ≠ 0)]
    rw [hs1, hs2]
  · unfold invitationMatches
    rw [h1t, h1a, h1r]
    simp only [beq_self_eq_true, Bool.true_and, Bool.and_eq_true]
    constructor
    · unfold strLeB strLtB
      rw [isoOfTV_midnight df]
      show (!charListLtB (formatDay dt ++ "T00:00:00.000Z").data
        (formatDayChars df ++ ['T', '0', '0', ':', '0', '0', ':', '0', '0', '.', '0',
          '0', '0', 'Z'])) = true
      rw [hd1, fmt_append_not_lt_same h0 (by omega) hle]
      rfl
    · unfold strLtB
      rw [isoOfTV_midnight (dt + 1)]
      show charListLtB (formatDay dt ++ "T00:00:00.000Z").data
        (formatDayChars (dt + 1) ++ ['T', '0', '0', ':', '0', '0', ':', '0', '0', '.',
          '0', '0', '0', 'Z']) = true
      rw [hd1]
      exact fmt_append_lt (by omega) h1 (by omega) _ _
  · unfold invitationMatches
    rw [h2r]
    have hfalse : strLtB (formatDay (dt + 1) ++ "T00:00:00.000Z")
        (isoOfTV ((dt + 1) * 86400000)) = false := by
      unfold strLtB
      rw [isoOfTV_midnight (dt + 1), hd2]
      exact charListLtB_irrefl _
    rw [hfalse]
    simp

theorem claim_C5_witness :
    queryInvitationsByDateRange ⟨[], []⟩ "t1" "a1" "2025-09-01" "2025-09-03" =
      groupByDateAux [] (stableSortBy (fun x y => strLeB x.receivedAt y.receivedAt)
        (((⟨[], []⟩ : Store).invitations.map Prod.snd).filter
          (invitationMatches "t1" "a1" (isoOfTV (20332 * 86400000))
            (isoOfTV ((20334 + 1) * 86400000))))) ∧
    invitationMatches "t1" "a1" (isoOfTV (20332 * 86400000))
      (isoOfTV ((20334 + 1) * 86400000))
      ⟨"t1", "a1", "e1", "2025-09-03T00:00:00.000Z"⟩ = true ∧
    invitationMatches "t1" "a1" (isoOfTV (20332 * 86400000))
      (isoOfTV ((20334 + 1) * 86400000))
      ⟨"t1", "a1", "e2", "2025-09-04T00:00:00.000Z"⟩ = false :=
  claim_C5 ⟨[], []⟩ "t1" "a1" "2025-09-01" "2025-09-03" 20332 20334
    ⟨"t1", "a1", "e1", "2025-09-03T00:00:00.000Z"⟩
    ⟨"t1", "a1", "e2", "2025-09-04T00:00:00.000Z"⟩
    (by decide) (by decide) (by decide) (by decide) (by decide)
    rfl rfl (by decide) (by decide)

/-- Claim C5 counterexample: for the validated range ending `9999-12-31` the
    query's upper bound formats as an expanded year (`+010000-…`), which sorts
    below every four-digit date string, so even the event at exactly the end
    day's UTC midnight is excluded. -/
theorem claim_C5_counterexample :
    isValidISODate "9999-12-31" = some true ∧
    queryInvitationsByDateRange
      ⟨[("e1", ⟨"t1", "a1", "e1", "9999-12-31T00:00:00.000Z"⟩)], []⟩
      "t1" "a1" "9999-12-31" "9999-12-31" = some [] := by
  exact ⟨by decide, by decide⟩

/-- Claim C8: in every 200 response the previousPeriodComparison field is
    present on the first data point and absent from every later one. -/
theorem claim_C8 (st : Store) (now : String) (q : QueryObj)
    (h200 : (getDailyInvitationMetrics st now q).status = 200)
    (i : Nat) (hi : i < (getDailyInvitationMetrics st now q).body.length) :
    ((getDailyInvitationMetrics st now q).body[i]?).map
      (fun p => p.previousPeriodComparison.isSome) = some (decide (i = 0)) := by
  rcases hv : validateQueryParams q with e | _ | ⟨tenantId, accountId, fromS, toS⟩
  · simp only [getDailyInvitationMetrics, hv] at h200
    exact absurd h200 (by decide)
  · simp only [getDailyInvitationMetrics, hv] at h200
    exact absurd h200 (by decide)
  rcases hc : (runIngestionPipeline st now tenantId accountId fromS toS).counts with
    _ | zfc
  · simp only [getDailyInvitationMetrics, hv, hc] at h200
    exact absurd h200 (by decide)
  rcases hpb : previousPeriodBounds fromS with ⟨pf, pt⟩
  rcases pf with _ | pF
  · simp only [getDailyInvitationMetrics, hv, hc, hpb] at h200
    exact absurd h200 (by decide)
  rcases pt with _ | pT
  · simp only [getDailyInvitationMetrics, hv, hc, hpb] at h200
    exact absurd h200 (by decide)
  rcases hgt : getTotalInvitationsInPeriod
      (runIngestionPipeline st now tenantId accountId fromS toS).store tenantId accountId
      pF pT with _ | prev
  · simp only [getDailyInvitationMetrics, hv, hc, hpb, hgt] at h200
    exact absurd h200 (by decide)
  simp only [getDailyInvitationMetrics, hv, hc, hpb, hgt] at hi ⊢
  rw [List.getElem?_eq_getElem hi]
  simp only [List.getElem_map, List.getElem_enum, Option.map_some']
  by_cases hi0 : i = 0
  · simp [hi0]
  · simp [hi0]

theorem claim_C8_witness :
    ((getDailyInvitationMetrics ⟨[], []⟩ "T0" ⟨some (.str "t1"), some (.str "a1"),
        some (.str "2025-09-01"), some (.str "2025-09-03")⟩).body[1]?).map
      (fun p => p.previousPeriodComparison.isSome) = some (decide ((1 : Nat) = 0)) :=
  claim_C8 ⟨[], []⟩ "T0" ⟨some (.str "t1"), some (.str "a1"),
      some (.str "2025-09-01"), some (.str "2025-09-03")⟩ (by decide) 1 (by decide)

/-- Claim C10 (amended): when the day after the range's end still has a
    four-digit year, every generated invitation carries a timestamp strictly
    inside one of the range's UTC days — its date component is a day of the
    range, hour below 24, minute below 60, seconds and milliseconds zero —
    and therefore lies in the query interval: at or after the start day's
    UTC midnight and strictly before the midnight after the end day.  (For
    `to = 9999-12-31` the interval's upper bound breaks; see the
    counterexample.) -/
theorem claim_C10 (tenantId accountId fromS toS : String) (df dt : Int)
    (hpf : fromISODateUTC fromS = some (df * 86400000))
    (hpt : fromISODateUTC toS = some (dt * 86400000))
    (h0 : 0 ≤ df + (epochRD : Int))
    (h1 : dt + 1 + (epochRD : Int) < (daysBeforeYear 10000 : Int)) :
    ∀ inv ∈ mockFetchInvitations tenantId accountId fromS toS,
      (∃ d ∈ eachDayInclusive fromS toS, ∃ hr mi : Nat, hr < 24 ∧ mi < 60 ∧
        inv.receivedAt = d ++ "T" ++ (⟨padNat 2 hr⟩ : String) ++ ":" ++
          (⟨padNat 2 mi⟩ : String) ++ ":00.000Z") ∧
      strLeB (isoOfTV (df * 86400000)) inv.receivedAt = true ∧
      strLtB inv.receivedAt (isoOfTV ((dt + 1) * 86400000)) = true := by
  intro inv hmem
  obtain ⟨d, hd, hgen⟩ := mem_mockFetch hmem
  obtain ⟨hr, mi, hhr, hmi, hrecv⟩ := mem_generate hgen
  have hd' := hd
  rw [eachDayInclusive_eq hpf hpt] at hd'
  obtain ⟨day, hday, hdfmt⟩ := List.mem_map.1 hd'
  rw [mem_dayRange] at hday
  have hrd : inv.receivedAt.data =
      formatDayChars day ++ ('T' :: (padNat 2 hr ++ ':' :: padNat 2 mi ++
        [':', '0', '0', '.', '0', '0', '0', 'Z'])) := by
    rw [hrecv, ← hdfmt]
    rw [receivedAt_data (formatDay day) hr mi]
    rfl
  refine ⟨⟨d, hd, hr, mi, hhr, hmi, hrecv⟩, ?_, ?_⟩
  · unfold strLeB strLtB
    rw [isoOfTV_midnight df]
    show (!charListLtB inv.receivedAt.data
      (formatDayChars df ++ ['T', '0', '0', ':', '0', '0', ':', '0', '0', '.', '0', '0',
        '0', 'Z'])) = true
    rw [hrd, recv_not_lt_lower h0 (by omega) hday.1 hhr hmi]
    rfl
  · unfold strLtB
    rw [isoOfTV_midnight (dt + 1)]
    show charListLtB inv.receivedAt.data
      (formatDayChars (dt + 1) ++ ['T', '0', '0', ':', '0', '0', ':', '0', '0', '.', '0',
        '0', '0', 'Z']) = true
    rw [hrd]
    exact fmt_append_lt (by omega) h1 (by omega) _ _

theorem claim_C10_witness :
    (⟨"inv_grtibb_20250901_0", "sender_j2zvs1", "2025-09-01T18:42:00.000Z"⟩ :
        MockInvitation) ∈ mockFetchInvitations "t1" "a1" "2025-09-01" "2025-09-01" ∧
    ((∃ d ∈ eachDayInclusive "2025-09-01" "2025-09-01", ∃ hr mi : Nat,
        hr < 24 ∧ mi < 60 ∧
        (⟨"inv_grtibb_20250901_0", "sender_j2zvs1", "2025-09-01T18:42:00.000Z"⟩ :
          MockInvitation).receivedAt = d ++ "T" ++ (⟨padNat 2 hr⟩ : String) ++ ":" ++
            (⟨padNat 2 mi⟩ : String) ++ ":00.000Z") ∧
      strLeB (isoOfTV (20332 * 86400000))
        (⟨"inv_grtibb_20250901_0", "sender_j2zvs1", "2025-09-01T18:42:00.000Z"⟩ :
          MockInvitation).receivedAt = true ∧
      strLtB (⟨"inv_grtibb_20250901_0", "sender_j2zvs1", "2025-09-01T18:42:00.000Z"⟩ :
          MockInvitation).receivedAt (isoOfTV ((20332 + 1) * 86400000)) = true) :=
  ⟨by decide,
    claim_C10 "t1" "a1" "2025-09-01" "2025-09-01" 20332 20332
      (by decide) (by decide) (by decide) (by decide)
      ⟨"inv_grtibb_20250901_0", "sender_j2zvs1", "2025-09-01T18:42:00.000Z"⟩
      (by decide)⟩

/-- Claim C10 counterexample: the range ending `9999-12-31` generates events,
    yet none of them compares strictly below the query interval's upper bound,
    because that bound's day formats with an expanded year. -/
theorem claim_C10_counterexample :
    fromISODateUTC "9999-12-31" = some (2932896 * 86400000) ∧
    (mockFetchInvitations "t1" "a1" "9999-12-31" "9999-12-31").length = 2 ∧
    (mockFetchInvitations "t1" "a1" "9999-12-31" "9999-12-31").all
      (fun inv => !strLtB inv.receivedAt (isoOfTV ((2932896 + 1) * 86400000))) = true := by
  exact ⟨by decide, by decide, by decide⟩
